import Mathlib

/-!
# Snake game: the simulation core of `static/js/game.js`

A shallow embedding of the module-level game state and of the functions that
mutate it (`initSnake`, `generateFood`, `startGame`, `pauseGame`, `gameStep`,
`changeDirection`, `updateScore`, `endGame`), followed by theorems about them.

Modelling conventions.

* JavaScript numbers that hold grid coordinates, the score and the tick
  interval are integers of small magnitude; they are modelled by `Int`.
* The four direction strings are an enumeration.
* `gameLoop` is the timer handle: `none` is `null`, `some d` is a live
  interval timer that fires `gameStep` every `d` milliseconds.
* `food` is `none` for the module-initial value `{}` and `some c` afterwards.
* `Date.now()` is a parameter `now` of the functions that read the clock.
* `Math.random()` is an oracle: a stream of values in `[0, 1)`, given as
  fractions.  The rejection loop of `generateFood` is run with a fuel bound;
  `none` stands for a loop that has not stopped within the bound.
* Calls to the collaborators (sound, DOM, renderer, persistence) are returned
  as a list of `Effect`s next to the new state.
-/

namespace SnakeGame

/-! ## Configuration constants (game.js lines 9-14) -/

def CELL_SIZE : Int := 20
def CANVAS_SIZE : Int := 400
def GRID_SIZE : Int := CANVAS_SIZE / CELL_SIZE
def INITIAL_SPEED : Int := 150
def SPEED_INCREMENT : Int := 5
def MIN_SPEED : Int := 50

/-! ## Data model -/

/-- A grid cell, the object literal with fields `x` and `y`. -/
structure Coord where
  x : Int
  y : Int
deriving DecidableEq, Repr

/-- The direction strings used by the game. -/
inductive Direction where
  | up
  | down
  | left
  | right
deriving DecidableEq, Repr

/-- One outcome of `Math.random()`: the fraction `num / den`, in `[0, 1)`. -/
structure Rand where
  num : Nat
  den : Nat
  lt : num < den

/-- Calls made to the collaborators, in the order the source makes them. -/
inductive Effect where
  | startBgm
  | stopBgm
  | playEat
  | playGameOver
  | showScore (score : Int)
  | showHighScore (highScore : Int)
  | setStartLabel
  | showGameOver (score : Int)
  | saveGameSession (score : Int) (duration : Int)
  | drawGame
deriving DecidableEq, Repr

/-- The module-level game variables (game.js lines 16-28), without the canvas. -/
structure State where
  snake : List Coord
  food : Option Coord
  direction : Direction
  nextDirection : Direction
  score : Int
  highScore : Int
  gameLoop : Option Int
  isPaused : Bool
  isGameOver : Bool
  gameStartTime : Option Int
  gameSpeed : Int
deriving DecidableEq, Repr

/-- The values the module-level variables are declared with. -/
def initialState : State :=
  { snake := []
    food := none
    direction := Direction.right
    nextDirection := Direction.right
    score := 0
    highScore := 0
    gameLoop := none
    isPaused := false
    isGameOver := false
    gameStartTime := none
    gameSpeed := INITIAL_SPEED }

/-! ## Helpers that name expressions of the source -/

/-- The table `opposites` of `changeDirection`. -/
def opposites : Direction → Direction
  | Direction.up => Direction.down
  | Direction.down => Direction.up
  | Direction.left => Direction.right
  | Direction.right => Direction.left

/-- The `switch (direction)` of `gameStep`, applied to a copy of a cell. -/
def moveHead (head : Coord) : Direction → Coord
  | Direction.up => { head with y := head.y - 1 }
  | Direction.down => { head with y := head.y + 1 }
  | Direction.left => { head with x := head.x - 1 }
  | Direction.right => { head with x := head.x + 1 }

/-- The test `snake.some(segment => segment.x === c.x && segment.y === c.y)`. -/
def snakeSome (snake : List Coord) (c : Coord) : Bool :=
  snake.any (fun segment => decide (segment.x = c.x) && decide (segment.y = c.y))

/-- The wall test of `gameStep` (line 225). -/
def hitsWall (head : Coord) : Bool :=
  decide (head.x < 0) || decide (head.x ≥ GRID_SIZE) ||
    decide (head.y < 0) || decide (head.y ≥ GRID_SIZE)

/-- The expression `Math.floor(Math.random() * n)` for one oracle value. -/
def floorRandom (r : Rand) (n : Int) : Int :=
  ((r.num : Int) * n) / (r.den : Int)

/-- The candidate built by the `k`-th pass through the body of the `do` loop
of `generateFood`; each pass consumes two oracle values. -/
def foodCandidate (rng : Nat → Rand) (k : Nat) : Coord :=
  let buffer : Int := 5
  let safeSize : Int := GRID_SIZE - 2 * buffer
  { x := floorRandom (rng (2 * k)) safeSize + buffer
    y := floorRandom (rng (2 * k + 1)) safeSize + buffer }

/-- The `do ... while` loop of `generateFood`, from pass `k` on, with at most
`fuel` passes. -/
def generateFoodLoop (snake : List Coord) (rng : Nat → Rand) : Nat → Nat → Option Coord
  | 0, _ => none
  | fuel + 1, k =>
    let newFood := foodCandidate rng k
    if snakeSome snake newFood then generateFoodLoop snake rng fuel (k + 1)
    else some newFood

/-! ## The functions of the module -/

/-- The function `initSnake` (lines 131-137). -/
def initSnake (s : State) : State :=
  { s with snake := [{ x := 5, y := 10 }, { x := 4, y := 10 }, { x := 3, y := 10 }] }

/-- The function `generateFood` (lines 142-155). -/
def generateFood (rng : Nat → Rand) (fuel : Nat) (s : State) : Option State :=
  match generateFoodLoop s.snake rng fuel 0 with
  | none => none
  | some newFood => some { s with food := some newFood }

/-- The function `updateScore` (lines 428-435). -/
def updateScore (s : State) : State × List Effect :=
  if s.score > s.highScore then
    ({ s with highScore := s.score }, [Effect.showScore s.score, Effect.showHighScore s.score])
  else (s, [Effect.showScore s.score])

/-- The function `endGame` (lines 440-457). `Date.now() - gameStartTime` reads
`null` as `0`; the divisor is positive, so `/` is `Math.floor` of the quotient. -/
def endGame (now : Int) (s : State) : State × List Effect :=
  let s1 := { s with isGameOver := true, gameLoop := none }
  let gameDuration := (now - s1.gameStartTime.getD 0) / 1000
  (s1, [Effect.stopBgm, Effect.playGameOver, Effect.showGameOver s1.score,
        Effect.saveGameSession s1.score gameDuration])

/-- The function `startGame` (lines 160-185). -/
def startGame (now : Int) (rng : Nat → Rand) (fuel : Nat) (s : State) :
    Option (State × List Effect) :=
  match generateFood rng fuel (initSnake s) with
  | none => none
  | some s1 =>
    let s2 := { s1 with
      direction := Direction.right
      nextDirection := Direction.right
      score := 0
      gameSpeed := INITIAL_SPEED
      isPaused := false
      isGameOver := false
      gameStartTime := some now }
    let (s3, shown) := updateScore s2
    some ({ s3 with gameLoop := some s3.gameSpeed },
      [Effect.startBgm] ++ shown ++ [Effect.setStartLabel])

/-- The function `pauseGame` (lines 190-203). -/
def pauseGame (s : State) : State × List Effect :=
  if s.isGameOver || s.gameLoop.isNone then (s, [])
  else
    let s1 := { s with isPaused := !s.isPaused }
    if s1.isPaused then ({ s1 with gameLoop := none }, [Effect.stopBgm])
    else ({ s1 with gameLoop := some s1.gameSpeed }, [Effect.startBgm])

/-- The function `gameStep` (lines 208-259).

On an empty `snake` the copy `{ ...snake[0] }` is `{}`; the increment makes one
field `NaN`, every comparison with it is false, so neither collision test
fires, the food test fails, and `unshift` followed by `pop` leaves `snake`
empty. -/
def gameStep (now : Int) (rng : Nat → Rand) (fuel : Nat) (s : State) :
    Option (State × List Effect) :=
  if s.isPaused || s.isGameOver then some (s, [])
  else
    let s1 := { s with direction := s.nextDirection }
    match s1.snake with
    | [] => some (s1, [Effect.drawGame])
    | seg0 :: _ =>
      let head := moveHead seg0 s1.direction
      if hitsWall head then some (endGame now s1)
      else if snakeSome s1.snake head then some (endGame now s1)
      else
        let s2 := { s1 with snake := head :: s1.snake }
        if s2.food = some head then
          let (s3, shown) := updateScore { s2 with score := s2.score + 10 }
          match generateFood rng fuel s3 with
          | none => none
          | some s4 =>
            if s4.gameSpeed > MIN_SPEED then
              let speed := s4.gameSpeed - SPEED_INCREMENT
              some ({ s4 with gameSpeed := speed, gameLoop := some speed },
                [Effect.playEat] ++ shown ++ [Effect.drawGame])
            else some (s4, [Effect.playEat] ++ shown ++ [Effect.drawGame])
        else some ({ s2 with snake := s2.snake.dropLast }, [Effect.drawGame])

/-- The function `changeDirection` (lines 411-423). -/
def changeDirection (newDirection : Direction) (s : State) : State :=
  if opposites newDirection ≠ s.direction then { s with nextDirection := newDirection }
  else s

/-! ## Specification-side vocabulary -/

/-- The grid query of the specification, in its words: true iff `0 ≤ x < N` and
`0 ≤ y < N`. It is compared below with the wall test of the source. -/
def inBounds (N : Int) (c : Coord) : Prop :=
  (0 ≤ c.x ∧ c.x < N) ∧ (0 ≤ c.y ∧ c.y < N)

instance (N : Int) (c : Coord) : Decidable (inBounds N c) :=
  inferInstanceAs (Decidable ((0 ≤ c.x ∧ c.x < N) ∧ (0 ≤ c.y ∧ c.y < N)))

/-- The food cell lies in the central region `5 ≤ x, y < 15`. -/
def inCentre (c : Coord) : Prop :=
  (5 ≤ c.x ∧ c.x < 15) ∧ (5 ≤ c.y ∧ c.y < 15)

instance (c : Coord) : Decidable (inCentre c) :=
  inferInstanceAs (Decidable ((5 ≤ c.x ∧ c.x < 15) ∧ (5 ≤ c.y ∧ c.y < 15)))

/-- The condition under which `gameStep` reaches its food branch (line 240
evaluates to true): the guards of lines 209, 225 and 231 are all passed and the
new head is the food cell. -/
def eatsFood (s : State) : Bool :=
  !s.isPaused && !s.isGameOver &&
    match s.snake with
    | [] => false
    | seg0 :: _ =>
      let head := moveHead seg0 s.nextDirection
      !hitsWall head && !snakeSome s.snake head && decide (s.food = some head)

/-- The state `gameStep` leaves behind when it eats and the sampling loop has
produced `newFood`. -/
def afterEating (s : State) (head newFood : Coord) : State :=
  let s3 := (updateScore { s with direction := s.nextDirection, snake := head :: s.snake,
                                  score := s.score + 10 }).1
  if s.gameSpeed > MIN_SPEED then
    { s3 with food := some newFood, gameSpeed := s.gameSpeed - SPEED_INCREMENT,
              gameLoop := some (s.gameSpeed - SPEED_INCREMENT) }
  else { s3 with food := some newFood }

/-- Within its first `fuel` passes the oracle offers a cell that is on none of
the listed segments, so the sampling loop stops within `fuel` passes. -/
def offersFreeCell (rng : Nat → Rand) (fuel : Nat) (snake : List Coord) : Prop :=
  ∃ j, j < fuel ∧ foodCandidate rng j ∉ snake

/-- The snake against which `gameStep` would sample new food: the current one
with the proposed head in front. -/
def grownSnake (s : State) : List Coord :=
  match s.snake with
  | [] => []
  | seg0 :: rest => moveHead seg0 s.nextDirection :: seg0 :: rest

/-- States reachable after a call to `startGame`, by any interleaving of calls
to `gameStep`, `changeDirection`, `pauseGame` and further calls to `startGame`,
whatever the clock and the random oracle answer. -/
inductive Reachable : State → Prop where
  | start (now : Int) (rng : Nat → Rand) (fuel : Nat) (s0 s : State) (out : List Effect) :
      startGame now rng fuel s0 = some (s, out) → Reachable s
  | step (now : Int) (rng : Nat → Rand) (fuel : Nat) (s s' : State) (out : List Effect) :
      Reachable s → gameStep now rng fuel s = some (s', out) → Reachable s'
  | turn (d : Direction) (s : State) : Reachable s → Reachable (changeDirection d s)
  | pause (s : State) : Reachable s → Reachable (pauseGame s).1

/-- One call from outside: the page, the keyboard or the timer. -/
inductive Action where
  | start (now : Int) (rng : Nat → Rand) (fuel : Nat)
  | step (now : Int) (rng : Nat → Rand) (fuel : Nat)
  | turn (d : Direction)
  | pause

/-- The state after one call; `none` when the call has not returned. -/
def perform (a : Action) (s : State) : Option State :=
  match a with
  | Action.start now rng fuel => (startGame now rng fuel s).map Prod.fst
  | Action.step now rng fuel => (gameStep now rng fuel s).map Prod.fst
  | Action.turn d => some (changeDirection d s)
  | Action.pause => some (pauseGame s).1

/-- The state after a sequence of calls. -/
def run : List Action → State → Option State
  | [], s => some s
  | a :: rest, s =>
    match perform a s with
    | none => none
    | some s' => run rest s'

/-- The facts carried along every run: the pending direction is not the
opposite of the current one, the snake has a head and a neck, and, while the
game is not over, the head is the neck moved one cell along `direction`. -/
def neckBehind (s : State) : Prop :=
  s.nextDirection ≠ opposites s.direction ∧
    ∃ hd nk rest, s.snake = hd :: nk :: rest ∧
      (s.isGameOver = false → hd = moveHead nk s.direction)

/-- The facts about the tick interval carried along every run: it stays between
50 and 150 and is a multiple of 5. -/
def speedInRange (s : State) : Prop :=
  50 ≤ s.gameSpeed ∧ s.gameSpeed ≤ 150 ∧ s.gameSpeed % 5 = 0

/-! ## Concrete inputs used in examples -/

/-- An oracle value `(n mod 10) / 10`. -/
def tenth (n : Nat) : Rand := ⟨n % 10, 10, Nat.mod_lt n (by decide)⟩

/-- The oracle that always answers `3 / 10`; every candidate is the cell `(8, 8)`. -/
def steadyRng : Nat → Rand := fun _ => tenth 3

/-- The oracle that always answers `0 / 10` and `5 / 10` in turn; every candidate
is the cell `(5, 10)`, where the initial snake has its head. -/
def stuckRng : Nat → Rand := fun i => if i % 2 = 0 then tenth 0 else tenth 5

/-- A game just started at time `0`, with the food at `(8, 8)`. -/
def freshGame : State :=
  { snake := [{ x := 5, y := 10 }, { x := 4, y := 10 }, { x := 3, y := 10 }]
    food := some { x := 8, y := 8 }
    direction := Direction.right
    nextDirection := Direction.right
    score := 0
    highScore := 0
    gameLoop := some 150
    isPaused := false
    isGameOver := false
    gameStartTime := some 0
    gameSpeed := 150 }

/-- The game `freshGame` with the food moved right in front of the head. -/
def foodAhead : State := { freshGame with food := some { x := 6, y := 10 } }

/-- A game whose snake has its head in the last column, heading right, with
30 points scored since it started at time `0`. -/
def atRightWall : State :=
  { freshGame with
    snake := [{ x := 19, y := 10 }, { x := 18, y := 10 }, { x := 17, y := 10 },
              { x := 16, y := 10 }, { x := 15, y := 10 }, { x := 14, y := 10 }]
    score := 30
    highScore := 30
    gameSpeed := 135
    gameLoop := some 135 }

/-- A game in which the snake, four segments long, has curled up so that the
cell to the right of its head is its own last segment; it last moved up and a
turn to the right is pending. -/
def tailChase : State :=
  { freshGame with
    snake := [{ x := 5, y := 5 }, { x := 5, y := 6 }, { x := 6, y := 6 }, { x := 6, y := 5 }]
    direction := Direction.up
    nextDirection := Direction.right
    score := 10
    highScore := 10
    gameSpeed := 145
    gameLoop := some 145 }

/-- The game `freshGame` after the call `changeDirection('up')`. -/
def turnPending : State := { freshGame with nextDirection := Direction.up }

/-- A game that has ended with 10 points, four segments and an interval of 145,
and whose direction variables hold down and left. -/
def endedGame : State :=
  { snake := [{ x := 5, y := 5 }, { x := 5, y := 6 }, { x := 6, y := 6 }, { x := 6, y := 5 }]
    food := some { x := 8, y := 8 }
    direction := Direction.down
    nextDirection := Direction.left
    score := 10
    highScore := 10
    gameLoop := none
    isPaused := false
    isGameOver := true
    gameStartTime := some 0
    gameSpeed := 145 }

/-- The calls that take `freshGame` up to the top row, one cell to the right,
into the top wall, and then request a turn to the left. -/
def intoTopWall : List Action :=
  [Action.turn Direction.up] ++ List.replicate 10 (Action.step 0 steadyRng 1) ++
    [Action.turn Direction.right, Action.step 0 steadyRng 1,
     Action.turn Direction.up, Action.step 0 steadyRng 1, Action.turn Direction.left]

/-- The calls that take `freshGame` to the food cell `(8, 8)`: three cells
right, two cells up. -/
def toTheFood : List Action :=
  List.replicate 3 (Action.step 0 steadyRng 1) ++
    [Action.turn Direction.up, Action.step 0 steadyRng 1]

/-- The state `toTheFood` leads to: the head is right below the food cell and
the snake is heading up. -/
def belowFood : State :=
  { freshGame with
    snake := [{ x := 8, y := 9 }, { x := 8, y := 10 }, { x := 7, y := 10 }]
    direction := Direction.up
    nextDirection := Direction.up }

/-- The state `intoTopWall` leads to: the game is over, `direction` holds the
fatal turn up, and a later request for left has been accepted. -/
def topEnded : State :=
  { freshGame with
    snake := [{ x := 6, y := 0 }, { x := 5, y := 0 }, { x := 5, y := 1 }]
    direction := Direction.up
    nextDirection := Direction.left
    gameLoop := none
    isGameOver := true }

/-! ## Further vocabulary: the idle page, full boards, runs without a restart -/

/-- The deferred initial draw at the end of the module (lines 544-550), when
the canvas is there: `initSnake(); generateFood(); drawGame();`. -/
def initialDraw (rng : Nat → Rand) (fuel : Nat) (s : State) : Option (State × List Effect) :=
  match generateFood rng fuel (initSnake s) with
  | none => none
  | some s1 => some (s1, [Effect.drawGame])

/-- The hundred cells of the central region `5 ≤ x, y < 15`, column by column. -/
def fullCentre : List Coord :=
  (List.range 10).flatMap fun (i : Nat) => (List.range 10).map fun (j : Nat) =>
    { x := Int.ofNat i + 5, y := Int.ofNat j + 5 }

/-- A state whose snake lies on every cell of the central region. -/
def crowded : State := { freshGame with snake := fullCentre }

/-- The call is a call of `startGame`. -/
def Action.isStart : Action → Bool
  | Action.start _ _ _ => true
  | _ => false

/-- Score, length and tick interval in lockstep: the snake has at least three
segments, the score is ten times the number of segments gained, and the
interval is 150 minus five per segment gained, but not below 50. -/
def lockstep (s : State) : Prop :=
  3 ≤ s.snake.length ∧
    s.score = 10 * ((s.snake.length : Int) - 3) ∧
    s.gameSpeed = max 50 (150 - 5 * ((s.snake.length : Int) - 3))

/-- The timer is live, at the current interval, exactly while the game is
neither paused nor over. -/
def timerMatches (s : State) : Prop :=
  (s.isPaused = false ∧ s.isGameOver = false → s.gameLoop = some s.gameSpeed) ∧
    (s.isPaused = true ∨ s.isGameOver = true → s.gameLoop = none) ∧
    (s.isPaused = true → s.isGameOver = false)

/-- The calls of `toTheFood` followed by the step that eats; the oracle then
answers `1 / 10`, so the new food is at `(6, 6)`. -/
def eatTheFood : List Action :=
  toTheFood ++ [Action.step 0 (fun _ => tenth 1) 1]

/-- The state `eatTheFood` leads to: four segments, 10 points, interval 145. -/
def grownGame : State :=
  { freshGame with
    snake := [{ x := 8, y := 8 }, { x := 8, y := 9 }, { x := 8, y := 10 }, { x := 7, y := 10 }]
    food := some { x := 6, y := 6 }
    direction := Direction.up
    nextDirection := Direction.up
    score := 10
    highScore := 10
    gameSpeed := 145
    gameLoop := some 145 }

/-! ## Basic facts about the helpers -/

theorem snakeSome_iff (snake : List Coord) (c : Coord) :
    snakeSome snake c = true ↔ c ∈ snake := by
  unfold snakeSome
  rw [List.any_eq_true]
  constructor
  · rintro ⟨seg, hmem, h⟩
    have hxy : seg.x = c.x ∧ seg.y = c.y := by simpa using h
    have : seg = c := by
      cases seg; cases c; simp_all
    exact this ▸ hmem
  · intro h
    exact ⟨c, h, by simp⟩

theorem snakeSome_eq_false_iff (snake : List Coord) (c : Coord) :
    snakeSome snake c = false ↔ c ∉ snake := by
  rw [← snakeSome_iff]; simp

theorem floorRandom_nonneg (r : Rand) (n : Int) (hn : 0 ≤ n) : 0 ≤ floorRandom r n := by
  unfold floorRandom
  exact Int.ediv_nonneg (Int.mul_nonneg (Int.ofNat_nonneg _) hn) (Int.ofNat_nonneg _)

theorem floorRandom_lt (r : Rand) (n : Int) (hn : 0 < n) : floorRandom r n < n := by
  unfold floorRandom
  have hden : (0 : Int) < (r.den : Int) := by
    have := r.lt
    omega
  apply Int.ediv_lt_of_lt_mul hden
  have hlt : (r.num : Int) < (r.den : Int) := by exact_mod_cast r.lt
  nlinarith

theorem foodCandidate_central (rng : Nat → Rand) (k : Nat) :
    5 ≤ (foodCandidate rng k).x ∧ (foodCandidate rng k).x < 15 ∧
      5 ≤ (foodCandidate rng k).y ∧ (foodCandidate rng k).y < 15 := by
  have hs : GRID_SIZE - 2 * 5 = 10 := by decide
  have h1 := floorRandom_nonneg (rng (2 * k)) 10 (by decide)
  have h2 := floorRandom_lt (rng (2 * k)) 10 (by decide)
  have h3 := floorRandom_nonneg (rng (2 * k + 1)) 10 (by decide)
  have h4 := floorRandom_lt (rng (2 * k + 1)) 10 (by decide)
  simp only [foodCandidate, hs]
  omega

theorem generateFoodLoop_some (snake : List Coord) (rng : Nat → Rand) (fuel k : Nat)
    (c : Coord) (h : generateFoodLoop snake rng fuel k = some c) :
    c ∉ snake ∧ ∃ j, k ≤ j ∧ j < k + fuel ∧ c = foodCandidate rng j := by
  induction fuel generalizing k with
  | zero => simp [generateFoodLoop] at h
  | succ n ih =>
    simp only [generateFoodLoop] at h
    by_cases hocc : snakeSome snake (foodCandidate rng k) = true
    · rw [if_pos hocc] at h
      obtain ⟨hc, j, hj1, hj2, hj3⟩ := ih (k + 1) h
      exact ⟨hc, j, by omega, by omega, hj3⟩
    · rw [if_neg hocc] at h
      have hc : foodCandidate rng k = c := by simpa using h
      subst hc
      refine ⟨?_, k, le_refl _, by omega, rfl⟩
      rw [← snakeSome_iff]
      exact hocc

theorem generateFoodLoop_of_free (snake : List Coord) (rng : Nat → Rand) (j : Nat)
    (hfree : foodCandidate rng j ∉ snake) (fuel k : Nat) (hk : k ≤ j) (hj : j < k + fuel) :
    ∃ c, generateFoodLoop snake rng fuel k = some c := by
  induction fuel generalizing k with
  | zero => omega
  | succ n ih =>
    simp only [generateFoodLoop]
    by_cases hocc : snakeSome snake (foodCandidate rng k) = true
    · rw [if_pos hocc]
      have hne : k ≠ j := by
        rintro rfl
        exact hfree ((snakeSome_iff _ _).1 hocc)
      exact ih (k + 1) (by omega) (by omega)
    · rw [if_neg hocc]
      exact ⟨_, rfl⟩

/-! ## The branches of `gameStep` -/

theorem gameStep_idle (now : Int) (rng : Nat → Rand) (fuel : Nat) (s : State)
    (h : s.isPaused = true ∨ s.isGameOver = true) :
    gameStep now rng fuel s = some (s, []) := by
  unfold gameStep
  rcases h with h | h <;> simp [h]

theorem gameStep_wall (now : Int) (rng : Nat → Rand) (fuel : Nat) (s : State)
    (hd : Coord) (tl : List Coord)
    (hp : s.isPaused = false) (hg : s.isGameOver = false) (hs : s.snake = hd :: tl)
    (hw : hitsWall (moveHead hd s.nextDirection) = true) :
    gameStep now rng fuel s = some (endGame now { s with direction := s.nextDirection }) := by
  unfold gameStep
  simp [hp, hg, hs, hw]

theorem gameStep_self (now : Int) (rng : Nat → Rand) (fuel : Nat) (s : State)
    (hd : Coord) (tl : List Coord)
    (hp : s.isPaused = false) (hg : s.isGameOver = false) (hs : s.snake = hd :: tl)
    (hw : hitsWall (moveHead hd s.nextDirection) = false)
    (hself : moveHead hd s.nextDirection ∈ s.snake) :
    gameStep now rng fuel s = some (endGame now { s with direction := s.nextDirection }) := by
  have hsome : snakeSome (hd :: tl) (moveHead hd s.nextDirection) = true := by
    rw [snakeSome_iff, ← hs]; exact hself
  unfold gameStep
  simp [hp, hg, hs, hw, hsome]

theorem gameStep_move (now : Int) (rng : Nat → Rand) (fuel : Nat) (s : State)
    (hd : Coord) (tl : List Coord)
    (hp : s.isPaused = false) (hg : s.isGameOver = false) (hs : s.snake = hd :: tl)
    (hw : hitsWall (moveHead hd s.nextDirection) = false)
    (hself : moveHead hd s.nextDirection ∉ s.snake)
    (hfood : s.food ≠ some (moveHead hd s.nextDirection)) :
    gameStep now rng fuel s =
      some ({ s with direction := s.nextDirection,
                     snake := moveHead hd s.nextDirection :: (hd :: tl).dropLast },
            [Effect.drawGame]) := by
  have hsome : snakeSome (hd :: tl) (moveHead hd s.nextDirection) = false := by
    rw [snakeSome_eq_false_iff, ← hs]; exact hself
  unfold gameStep
  simp [hp, hg, hs, hw, hsome, hfood]

theorem gameStep_eat (now : Int) (rng : Nat → Rand) (fuel : Nat) (s : State)
    (hd : Coord) (tl : List Coord)
    (hp : s.isPaused = false) (hg : s.isGameOver = false) (hs : s.snake = hd :: tl)
    (hw : hitsWall (moveHead hd s.nextDirection) = false)
    (hself : moveHead hd s.nextDirection ∉ s.snake)
    (hfood : s.food = some (moveHead hd s.nextDirection)) :
    (gameStep now rng fuel s).map Prod.fst =
      (generateFoodLoop (moveHead hd s.nextDirection :: s.snake) rng fuel 0).map
        (afterEating s (moveHead hd s.nextDirection)) := by
  have hsome : snakeSome (hd :: tl) (moveHead hd s.nextDirection) = false := by
    rw [snakeSome_eq_false_iff, ← hs]; exact hself
  unfold gameStep
  simp only [hp, hg, hs, hw, hsome, hfood, Bool.or_self, Bool.false_eq_true, if_false, if_true]
  unfold afterEating generateFood updateScore
  by_cases hhi : s.score + 10 > s.highScore
  · simp only [hhi, if_true, hs]
    cases hloop : generateFoodLoop (moveHead hd s.nextDirection :: hd :: tl) rng fuel 0 with
    | none => simp
    | some f =>
      by_cases hsp : s.gameSpeed > MIN_SPEED <;> simp [hsp, hp, hg]
  · simp only [hhi, if_false, hs]
    cases hloop : generateFoodLoop (moveHead hd s.nextDirection :: hd :: tl) rng fuel 0 with
    | none => simp
    | some f =>
      by_cases hsp : s.gameSpeed > MIN_SPEED <;> simp [hsp, hp, hg]

/-! ## Wall test and grid query -/

theorem hitsWall_eq_false_iff (c : Coord) : hitsWall c = false ↔ inBounds GRID_SIZE c := by
  have hN : GRID_SIZE = 20 := by decide
  unfold hitsWall inBounds
  rw [hN]
  simp only [Bool.or_eq_false_iff, decide_eq_false_iff_not, not_lt, ge_iff_le, not_le]
  constructor
  · rintro ⟨⟨⟨h1, h2⟩, h3⟩, h4⟩
    exact ⟨⟨h1, h2⟩, h3, h4⟩
  · rintro ⟨⟨h1, h2⟩, h3, h4⟩
    exact ⟨⟨⟨h1, h2⟩, h3⟩, h4⟩

theorem hitsWall_iff (c : Coord) : hitsWall c = true ↔ ¬ inBounds GRID_SIZE c := by
  rw [← hitsWall_eq_false_iff]; simp

/-! ## C1: a plain move -/

/-- C1. In a state that is neither paused nor over, whose snake has head `hd`,
when the proposed head (`hd` moved one cell along `nextDirection`) is inside the
grid, is on no segment and is not the food cell, `gameStep` returns; the snake
keeps its length, its new head is the proposed head, the other segments are the
old snake without its last segment, and score and food are as before. In
particular the snake `[(5,10),(4,10),(3,10)]` heading right with no food at
`(6,10)` becomes `[(6,10),(5,10),(4,10)]`. -/
theorem gameStep_plain_move (now : Int) (rng : Nat → Rand) (fuel : Nat) (s : State)
    (hd : Coord) (tl : List Coord)
    (hp : s.isPaused = false) (hg : s.isGameOver = false) (hs : s.snake = hd :: tl)
    (hin : inBounds GRID_SIZE (moveHead hd s.nextDirection))
    (hself : moveHead hd s.nextDirection ∉ s.snake)
    (hfood : s.food ≠ some (moveHead hd s.nextDirection)) :
    ∃ s' out, gameStep now rng fuel s = some (s', out) ∧
      s'.snake.length = s.snake.length ∧
      s'.snake = moveHead hd s.nextDirection :: s.snake.dropLast ∧
      s'.score = s.score ∧ s'.food = s.food ∧
      (s.snake = [{ x := 5, y := 10 }, { x := 4, y := 10 }, { x := 3, y := 10 }] →
        s.nextDirection = Direction.right →
        s'.snake = [{ x := 6, y := 10 }, { x := 5, y := 10 }, { x := 4, y := 10 }]) := by
  have hw := (hitsWall_eq_false_iff _).2 hin
  refine ⟨_, _, gameStep_move now rng fuel s hd tl hp hg hs hw hself hfood, ?_, ?_, rfl, rfl, ?_⟩
  · simp [hs]
  · simp [hs]
  · intro h3 hr
    rw [h3] at hs
    injection hs with h1 h2
    subst h1 h2
    rw [hr]
    rfl

theorem gameStep_plain_move_witness :
    freshGame.snake = [{ x := 5, y := 10 }, { x := 4, y := 10 }, { x := 3, y := 10 }] ∧
    freshGame.nextDirection = Direction.right ∧
    ∃ s' out, gameStep 0 steadyRng 1 freshGame = some (s', out) ∧
      s'.snake.length = freshGame.snake.length ∧
      s'.snake = moveHead { x := 5, y := 10 } freshGame.nextDirection ::
        freshGame.snake.dropLast ∧
      s'.score = freshGame.score ∧ s'.food = freshGame.food ∧
      (freshGame.snake = [{ x := 5, y := 10 }, { x := 4, y := 10 }, { x := 3, y := 10 }] →
        freshGame.nextDirection = Direction.right →
        s'.snake = [{ x := 6, y := 10 }, { x := 5, y := 10 }, { x := 4, y := 10 }]) :=
  ⟨rfl, rfl, gameStep_plain_move 0 steadyRng 1 freshGame { x := 5, y := 10 }
    [{ x := 4, y := 10 }, { x := 3, y := 10 }] rfl rfl rfl (by decide) (by decide) (by decide)⟩
/-! ## C2: eating -/

theorem afterEating_fields (s : State) (head f : Coord) :
    (afterEating s head f).snake = head :: s.snake ∧
    (afterEating s head f).score = s.score + 10 ∧
    (afterEating s head f).food = some f ∧
    (afterEating s head f).direction = s.nextDirection ∧
    (afterEating s head f).nextDirection = s.nextDirection ∧
    (afterEating s head f).isPaused = s.isPaused ∧
    (afterEating s head f).isGameOver = s.isGameOver ∧
    (afterEating s head f).gameSpeed =
      (if s.gameSpeed > MIN_SPEED then s.gameSpeed - SPEED_INCREMENT else s.gameSpeed) := by
  unfold afterEating updateScore
  by_cases hhi : s.score + 10 > s.highScore <;>
    by_cases hsp : s.gameSpeed > MIN_SPEED <;> simp [hhi, hsp]

theorem gameStep_eat_some (now : Int) (rng : Nat → Rand) (fuel : Nat) (s : State)
    (hd : Coord) (tl : List Coord)
    (hp : s.isPaused = false) (hg : s.isGameOver = false) (hs : s.snake = hd :: tl)
    (hw : hitsWall (moveHead hd s.nextDirection) = false)
    (hself : moveHead hd s.nextDirection ∉ s.snake)
    (hfood : s.food = some (moveHead hd s.nextDirection))
    (s' : State) (out : List Effect) (hstep : gameStep now rng fuel s = some (s', out)) :
    ∃ f, generateFoodLoop (moveHead hd s.nextDirection :: s.snake) rng fuel 0 = some f ∧
      s' = afterEating s (moveHead hd s.nextDirection) f := by
  have h := gameStep_eat now rng fuel s hd tl hp hg hs hw hself hfood
  rw [hstep] at h
  cases hloop : generateFoodLoop (moveHead hd s.nextDirection :: s.snake) rng fuel 0 with
  | none => rw [hloop] at h; simp at h
  | some f =>
    rw [hloop] at h
    refine ⟨f, rfl, ?_⟩
    simpa using h

theorem gameStep_eat_returns (now : Int) (rng : Nat → Rand) (fuel : Nat) (s : State)
    (hd : Coord) (tl : List Coord)
    (hp : s.isPaused = false) (hg : s.isGameOver = false) (hs : s.snake = hd :: tl)
    (hw : hitsWall (moveHead hd s.nextDirection) = false)
    (hself : moveHead hd s.nextDirection ∉ s.snake)
    (hfood : s.food = some (moveHead hd s.nextDirection))
    (hfree : offersFreeCell rng fuel (moveHead hd s.nextDirection :: s.snake)) :
    ∃ s' out, gameStep now rng fuel s = some (s', out) := by
  have h := gameStep_eat now rng fuel s hd tl hp hg hs hw hself hfood
  obtain ⟨j, hj, hjfree⟩ := hfree
  obtain ⟨f, hf⟩ := generateFoodLoop_of_free _ rng j hjfree fuel 0 (Nat.zero_le _) (by omega)
  rw [hf] at h
  cases hstep : gameStep now rng fuel s with
  | none => rw [hstep] at h; simp at h
  | some r => exact ⟨r.1, r.2, rfl⟩

/-- C2. In a state that is neither paused nor over, whose snake has head `hd`,
when the proposed head is inside the grid, is on no segment and is the food
cell: every result of `gameStep` (every run in which the food sampling stops)
has the proposed head put in front of the whole old snake, so the length grows
by exactly one, the score grows by exactly 10, and the new food cell lies in
the central region `5 ≤ x, y < 15` and is on no segment of the new snake. The
step does return as soon as the oracle offers one free cell within the fuel. -/
theorem gameStep_eats_food (now : Int) (rng : Nat → Rand) (fuel : Nat) (s : State)
    (hd : Coord) (tl : List Coord)
    (hp : s.isPaused = false) (hg : s.isGameOver = false) (hs : s.snake = hd :: tl)
    (hin : inBounds GRID_SIZE (moveHead hd s.nextDirection))
    (hself : moveHead hd s.nextDirection ∉ s.snake)
    (hfood : s.food = some (moveHead hd s.nextDirection)) :
    (∀ s' out, gameStep now rng fuel s = some (s', out) →
      s'.snake = moveHead hd s.nextDirection :: s.snake ∧
      s'.snake.length = s.snake.length + 1 ∧
      s'.score = s.score + 10 ∧
      ∃ f, s'.food = some f ∧ inCentre f ∧ f ∉ s'.snake) ∧
    (offersFreeCell rng fuel (moveHead hd s.nextDirection :: s.snake) →
      ∃ s' out, gameStep now rng fuel s = some (s', out)) := by
  have hw := (hitsWall_eq_false_iff _).2 hin
  constructor
  · intro s' out hstep
    obtain ⟨f, hloop, rfl⟩ :=
      gameStep_eat_some now rng fuel s hd tl hp hg hs hw hself hfood s' out hstep
    obtain ⟨hsn, hsc, hfd, -⟩ := afterEating_fields s (moveHead hd s.nextDirection) f
    obtain ⟨hnot, j, -, -, hj⟩ := generateFoodLoop_some _ rng fuel 0 f hloop
    refine ⟨hsn, by rw [hsn]; simp, hsc, f, hfd, ?_, by rw [hsn]; exact hnot⟩
    rw [hj]
    obtain ⟨h1, h2, h3, h4⟩ := foodCandidate_central rng j
    exact ⟨⟨h1, h2⟩, h3, h4⟩
  · exact gameStep_eat_returns now rng fuel s hd tl hp hg hs hw hself hfood

theorem gameStep_eats_food_witness :
    (∀ s' out, gameStep 0 steadyRng 1 foodAhead = some (s', out) →
      s'.snake = moveHead { x := 5, y := 10 } foodAhead.nextDirection :: foodAhead.snake ∧
      s'.snake.length = foodAhead.snake.length + 1 ∧
      s'.score = foodAhead.score + 10 ∧
      ∃ f, s'.food = some f ∧ inCentre f ∧ f ∉ s'.snake) ∧
    (offersFreeCell steadyRng 1
        (moveHead { x := 5, y := 10 } foodAhead.nextDirection :: foodAhead.snake) →
      ∃ s' out, gameStep 0 steadyRng 1 foodAhead = some (s', out)) ∧
    gameStep 0 steadyRng 1 foodAhead =
      some ({ foodAhead with
                snake := [{ x := 6, y := 10 }, { x := 5, y := 10 }, { x := 4, y := 10 },
                          { x := 3, y := 10 }]
                food := some { x := 8, y := 8 }
                score := 10
                highScore := 10
                gameSpeed := 145
                gameLoop := some 145 },
            [Effect.playEat, Effect.showScore 10, Effect.showHighScore 10, Effect.drawGame]) :=
  ⟨(gameStep_eats_food 0 steadyRng 1 foodAhead { x := 5, y := 10 }
      [{ x := 4, y := 10 }, { x := 3, y := 10 }] rfl rfl rfl (by decide) (by decide) rfl).1,
   (gameStep_eats_food 0 steadyRng 1 foodAhead { x := 5, y := 10 }
      [{ x := 4, y := 10 }, { x := 3, y := 10 }] rfl rfl rfl (by decide) (by decide) rfl).2,
   by decide⟩
/-! ## C3: the wall -/

/-- C3. In a state that is neither paused nor over, whose snake has head `hd`:
the wall test of `gameStep` fires exactly when the proposed head fails
`0 ≤ x < 20` and `0 ≤ y < 20` (the grid query with `N = 20`). When it fires,
`gameStep` returns with `isGameOver` set and the timer handle cleared, leaves
snake, food and score as they were, and hands the unchanged score to
`saveGameSession`. When the proposed head is in bounds and on no segment, the
step does not end the game. -/
theorem gameStep_wall_collision (now : Int) (rng : Nat → Rand) (fuel : Nat) (s : State)
    (hd : Coord) (tl : List Coord)
    (hp : s.isPaused = false) (hg : s.isGameOver = false) (hs : s.snake = hd :: tl) :
    GRID_SIZE = 20 ∧
    (hitsWall (moveHead hd s.nextDirection) = true ↔
      ¬ inBounds 20 (moveHead hd s.nextDirection)) ∧
    (¬ inBounds 20 (moveHead hd s.nextDirection) →
      ∃ s' out, gameStep now rng fuel s = some (s', out) ∧
        s'.isGameOver = true ∧ s'.gameLoop = none ∧
        s'.snake = s.snake ∧ s'.food = s.food ∧ s'.score = s.score ∧
        out = [Effect.stopBgm, Effect.playGameOver, Effect.showGameOver s.score,
               Effect.saveGameSession s.score ((now - s.gameStartTime.getD 0) / 1000)]) ∧
    (inBounds 20 (moveHead hd s.nextDirection) → moveHead hd s.nextDirection ∉ s.snake →
      ∀ s' out, gameStep now rng fuel s = some (s', out) → s'.isGameOver = false) := by
  have hN : GRID_SIZE = 20 := by decide
  refine ⟨hN, ?_, ?_, ?_⟩
  · rw [← hN]; exact hitsWall_iff _
  · intro hout
    rw [← hN] at hout
    have hw := (hitsWall_iff _).2 hout
    exact ⟨_, _, gameStep_wall now rng fuel s hd tl hp hg hs hw, rfl, rfl, rfl, rfl, rfl, rfl⟩
  · intro hin hself s' out hstep
    rw [← hN] at hin
    have hw := (hitsWall_eq_false_iff _).2 hin
    by_cases hfood : s.food = some (moveHead hd s.nextDirection)
    · obtain ⟨f, -, rfl⟩ :=
        gameStep_eat_some now rng fuel s hd tl hp hg hs hw hself hfood s' out hstep
      have h := (afterEating_fields s (moveHead hd s.nextDirection) f).2.2.2.2.2.2.1
      rw [h, hg]
    · rw [gameStep_move now rng fuel s hd tl hp hg hs hw hself hfood] at hstep
      injection hstep with hstep
      injection hstep with h1 h2
      rw [← h1]
      exact hg

theorem gameStep_wall_collision_witness :
    ¬ inBounds 20 (moveHead { x := 19, y := 10 } atRightWall.nextDirection) ∧
    ∃ s' out, gameStep 7500 steadyRng 1 atRightWall = some (s', out) ∧
      s'.isGameOver = true ∧ s'.gameLoop = none ∧
      s'.snake = atRightWall.snake ∧ s'.food = atRightWall.food ∧ s'.score = 30 ∧
      out = [Effect.stopBgm, Effect.playGameOver, Effect.showGameOver 30,
             Effect.saveGameSession 30 7] :=
  ⟨by decide,
   (gameStep_wall_collision 7500 steadyRng 1 atRightWall { x := 19, y := 10 }
      [{ x := 18, y := 10 }, { x := 17, y := 10 }, { x := 16, y := 10 },
       { x := 15, y := 10 }, { x := 14, y := 10 }] rfl rfl rfl).2.2.1 (by decide)⟩
/-! ## C4: the pause toggle -/

theorem pauseGame_running (s : State) (d : Int)
    (hp : s.isPaused = false) (hg : s.isGameOver = false) (hl : s.gameLoop = some d) :
    pauseGame s = ({ s with isPaused := true, gameLoop := none }, [Effect.stopBgm]) := by
  unfold pauseGame
  simp [hp, hg, hl]

theorem pauseGame_no_timer (s : State) (hl : s.gameLoop = none) : pauseGame s = (s, []) := by
  unfold pauseGame
  simp [hl]

/-- The second call of `pauseGame` returns at the guard of line 191, because
the first call has set `gameLoop` to `null`: the branch that restarts the timer
is never reached. -/
theorem pauseGame_twice (s : State) (d : Int)
    (hp : s.isPaused = false) (hg : s.isGameOver = false) (hl : s.gameLoop = some d) :
    pauseGame (pauseGame s).1 = ({ s with isPaused := true, gameLoop := none }, []) := by
  rw [pauseGame_running s d hp hg hl]
  exact pauseGame_no_timer _ rfl

/-- C4. The game `freshGame` is what `startGame` produces from the initial
module state. One call of `pauseGame` pauses it and stops the timer; a second
call changes nothing: the game is still paused and has no timer. -/
theorem pauseGame_does_not_resume :
    startGame 0 steadyRng 1 initialState =
      some (freshGame, [Effect.startBgm, Effect.showScore 0, Effect.setStartLabel]) ∧
    pauseGame freshGame =
      ({ freshGame with isPaused := true, gameLoop := none }, [Effect.stopBgm]) ∧
    pauseGame (pauseGame freshGame).1 =
      ({ freshGame with isPaused := true, gameLoop := none }, []) ∧
    (pauseGame (pauseGame freshGame).1).1.isPaused = true ∧
    (pauseGame (pauseGame freshGame).1).1.gameLoop = none := by
  decide

/-! ## C5: the cell the tail is about to leave -/

/-- C5, as the code has it. In a state that is neither paused nor over, whose
snake has head `hd`, when the proposed head is in bounds and is the cell of the
snake's last segment, `gameStep` ends the game: `isGameOver` is set, the timer
is cleared, and snake, food and score stay as they were. The self-collision
test of line 231 runs over the whole snake before the tail is removed. -/
theorem gameStep_tail_cell_collides (now : Int) (rng : Nat → Rand) (fuel : Nat) (s : State)
    (hd : Coord) (tl : List Coord)
    (hp : s.isPaused = false) (hg : s.isGameOver = false) (hs : s.snake = hd :: tl)
    (hin : inBounds GRID_SIZE (moveHead hd s.nextDirection))
    (hlast : s.snake.getLast? = some (moveHead hd s.nextDirection)) :
    ∃ s' out, gameStep now rng fuel s = some (s', out) ∧
      s'.isGameOver = true ∧ s'.gameLoop = none ∧
      s'.snake = s.snake ∧ s'.food = s.food ∧ s'.score = s.score := by
  have hw := (hitsWall_eq_false_iff _).2 hin
  have hself := List.mem_of_getLast?_eq_some hlast
  exact ⟨_, _, gameStep_self now rng fuel s hd tl hp hg hs hw hself, rfl, rfl, rfl, rfl, rfl⟩

theorem gameStep_tail_cell_collides_witness :
    inBounds GRID_SIZE (moveHead { x := 5, y := 5 } tailChase.nextDirection) ∧
    tailChase.snake.getLast? = some (moveHead { x := 5, y := 5 } tailChase.nextDirection) ∧
    ∃ s' out, gameStep 0 steadyRng 1 tailChase = some (s', out) ∧
      s'.isGameOver = true ∧ s'.gameLoop = none ∧
      s'.snake = tailChase.snake ∧ s'.food = tailChase.food ∧ s'.score = tailChase.score :=
  ⟨by decide, by decide,
   gameStep_tail_cell_collides 0 steadyRng 1 tailChase { x := 5, y := 5 }
     [{ x := 5, y := 6 }, { x := 6, y := 6 }, { x := 6, y := 5 }] rfl rfl rfl
     (by decide) (by decide)⟩

/-- C5 as stated fails on `tailChase`: the game is neither paused nor over, the
proposed head `(6,5)` is in bounds, is not the food cell, is the last segment
and differs from every other segment, and yet the step ends the game with the
snake left where it was. -/
theorem gameStep_tail_cell_counterexample :
    tailChase.isPaused = false ∧ tailChase.isGameOver = false ∧
    moveHead { x := 5, y := 5 } tailChase.nextDirection = { x := 6, y := 5 } ∧
    inBounds GRID_SIZE { x := 6, y := 5 } ∧
    tailChase.food ≠ some { x := 6, y := 5 } ∧
    tailChase.snake.getLast? = some { x := 6, y := 5 } ∧
    { x := 6, y := 5 } ∉ tailChase.snake.dropLast ∧
    gameStep 0 steadyRng 1 tailChase =
      some ({ tailChase with direction := Direction.right, isGameOver := true,
                             gameLoop := none },
            [Effect.stopBgm, Effect.playGameOver, Effect.showGameOver 10,
             Effect.saveGameSession 10 0]) := by
  decide
/-! ## Case analysis of one step -/

theorem snake_nil_or_cons (s : State) :
    s.snake = [] ∨ ∃ hd tl, s.snake = hd :: tl := by
  cases s.snake with
  | nil => exact Or.inl rfl
  | cons hd tl => exact Or.inr ⟨hd, tl, rfl⟩

theorem gameStep_empty (now : Int) (rng : Nat → Rand) (fuel : Nat) (s : State)
    (hp : s.isPaused = false) (hg : s.isGameOver = false) (hs : s.snake = []) :
    gameStep now rng fuel s =
      some ({ s with direction := s.nextDirection }, [Effect.drawGame]) := by
  unfold gameStep
  simp [hp, hg, hs]

/-- Every result of `gameStep` comes from one of its five exits: the guard of
line 209, the (unreachable) empty snake, `endGame`, the plain move, or the
food branch. -/
theorem gameStep_cases (now : Int) (rng : Nat → Rand) (fuel : Nat) (s s' : State)
    (out : List Effect) (h : gameStep now rng fuel s = some (s', out)) :
    ((s.isPaused = true ∨ s.isGameOver = true) ∧ s' = s) ∨
    (s.isPaused = false ∧ s.isGameOver = false ∧
      ((s.snake = [] ∧ s' = { s with direction := s.nextDirection }) ∨
       (∃ hd tl, s.snake = hd :: tl ∧
          (hitsWall (moveHead hd s.nextDirection) = true ∨
            moveHead hd s.nextDirection ∈ s.snake) ∧
          s' = { s with direction := s.nextDirection, isGameOver := true,
                        gameLoop := none }) ∨
       (∃ hd tl, s.snake = hd :: tl ∧
          hitsWall (moveHead hd s.nextDirection) = false ∧
          moveHead hd s.nextDirection ∉ s.snake ∧
          s.food ≠ some (moveHead hd s.nextDirection) ∧
          s' = { s with direction := s.nextDirection,
                        snake := moveHead hd s.nextDirection :: (hd :: tl).dropLast }) ∨
       (∃ hd tl f, s.snake = hd :: tl ∧
          hitsWall (moveHead hd s.nextDirection) = false ∧
          moveHead hd s.nextDirection ∉ s.snake ∧
          s.food = some (moveHead hd s.nextDirection) ∧
          f ∉ moveHead hd s.nextDirection :: s.snake ∧ inCentre f ∧
          s' = afterEating s (moveHead hd s.nextDirection) f))) := by
  by_cases hidle : s.isPaused = true ∨ s.isGameOver = true
  · left
    rw [gameStep_idle now rng fuel s hidle] at h
    injection h with h
    injection h with h1 h2
    exact ⟨hidle, h1.symm⟩
  · right
    have hp : s.isPaused = false := by
      cases hv : s.isPaused
      · rfl
      · exact absurd (Or.inl hv) hidle
    have hg : s.isGameOver = false := by
      cases hv : s.isGameOver
      · rfl
      · exact absurd (Or.inr hv) hidle
    refine ⟨hp, hg, ?_⟩
    rcases snake_nil_or_cons s with hs | ⟨hd, tl, hs⟩
    · left
      rw [gameStep_empty now rng fuel s hp hg hs] at h
      injection h with h
      injection h with h1 h2
      exact ⟨hs, h1.symm⟩
    · right
      by_cases hw : hitsWall (moveHead hd s.nextDirection) = true
      · left
        rw [gameStep_wall now rng fuel s hd tl hp hg hs hw] at h
        injection h with h
        injection h with h1 h2
        exact ⟨hd, tl, hs, Or.inl hw, h1.symm⟩
      · have hw' : hitsWall (moveHead hd s.nextDirection) = false := by
          simpa using hw
        by_cases hself : moveHead hd s.nextDirection ∈ s.snake
        · left
          rw [gameStep_self now rng fuel s hd tl hp hg hs hw' hself] at h
          injection h with h
          injection h with h1 h2
          exact ⟨hd, tl, hs, Or.inr hself, h1.symm⟩
        · right
          by_cases hfood : s.food = some (moveHead hd s.nextDirection)
          · right
            obtain ⟨f, hloop, rfl⟩ :=
              gameStep_eat_some now rng fuel s hd tl hp hg hs hw' hself hfood s' out h
            obtain ⟨hnot, j, -, -, hj⟩ := generateFoodLoop_some _ rng fuel 0 f hloop
            obtain ⟨h1, h2, h3, h4⟩ := foodCandidate_central rng j
            refine ⟨hd, tl, f, hs, hw', hself, hfood, hnot, ?_, rfl⟩
            rw [hj]; exact ⟨⟨h1, h2⟩, h3, h4⟩
          · left
            rw [gameStep_move now rng fuel s hd tl hp hg hs hw' hself hfood] at h
            injection h with h
            injection h with h1 h2
            exact ⟨hd, tl, hs, hw', hself, hfood, h1.symm⟩

/-- Whenever `gameStep` gets past the guard of line 209 and returns, it has
assigned `nextDirection` to `direction` and left `nextDirection` alone. -/
theorem gameStep_direction (now : Int) (rng : Nat → Rand) (fuel : Nat) (s s' : State)
    (out : List Effect) (hp : s.isPaused = false) (hg : s.isGameOver = false)
    (h : gameStep now rng fuel s = some (s', out)) :
    s'.direction = s.nextDirection ∧ s'.nextDirection = s.nextDirection := by
  rcases gameStep_cases now rng fuel s s' out h with ⟨hidle, -⟩ | ⟨-, -, hc⟩
  · rcases hidle with h1 | h1
    · rw [hp] at h1; cases h1
    · rw [hg] at h1; cases h1
  · rcases hc with ⟨-, rfl⟩ | ⟨hd, tl, -, -, rfl⟩ | ⟨hd, tl, -, -, -, -, rfl⟩ |
      ⟨hd, tl, f, -, -, -, -, -, -, rfl⟩
    · exact ⟨rfl, rfl⟩
    · exact ⟨rfl, rfl⟩
    · exact ⟨rfl, rfl⟩
    · have hf := afterEating_fields s (moveHead hd s.nextDirection) f
      exact ⟨hf.2.2.2.1, hf.2.2.2.2.1⟩

/-- The step returns as soon as the oracle offers, within the fuel, one cell
that is free of the snake grown by the proposed head. -/
theorem gameStep_returns (now : Int) (rng : Nat → Rand) (fuel : Nat) (s : State)
    (hfree : offersFreeCell rng fuel (grownSnake s)) :
    ∃ s' out, gameStep now rng fuel s = some (s', out) := by
  by_cases hidle : s.isPaused = true ∨ s.isGameOver = true
  · exact ⟨_, _, gameStep_idle now rng fuel s hidle⟩
  · have hp : s.isPaused = false := by
      cases hv : s.isPaused
      · rfl
      · exact absurd (Or.inl hv) hidle
    have hg : s.isGameOver = false := by
      cases hv : s.isGameOver
      · rfl
      · exact absurd (Or.inr hv) hidle
    rcases snake_nil_or_cons s with hs | ⟨hd, tl, hs⟩
    · exact ⟨_, _, gameStep_empty now rng fuel s hp hg hs⟩
    · by_cases hw : hitsWall (moveHead hd s.nextDirection) = true
      · exact ⟨_, _, gameStep_wall now rng fuel s hd tl hp hg hs hw⟩
      · have hw' : hitsWall (moveHead hd s.nextDirection) = false := by
          simpa using hw
        by_cases hself : moveHead hd s.nextDirection ∈ s.snake
        · exact ⟨_, _, gameStep_self now rng fuel s hd tl hp hg hs hw' hself⟩
        · by_cases hfood : s.food = some (moveHead hd s.nextDirection)
          · apply gameStep_eat_returns now rng fuel s hd tl hp hg hs hw' hself hfood
            unfold grownSnake at hfree
            rw [hs] at hfree ⊢
            exact hfree
          · exact ⟨_, _, gameStep_move now rng fuel s hd tl hp hg hs hw' hself hfood⟩
/-! ## C6: the direction guard -/

theorem opposites_involutive (d : Direction) : opposites (opposites d) = d := by
  cases d <;> rfl

theorem opposites_ne_iff (d e : Direction) : opposites d ≠ e ↔ d ≠ opposites e := by
  cases d <;> cases e <;> decide

theorem changeDirection_accept (d : Direction) (s : State) (h : d ≠ opposites s.direction) :
    changeDirection d s = { s with nextDirection := d } := by
  unfold changeDirection
  rw [if_pos ((opposites_ne_iff d s.direction).2 h)]

theorem changeDirection_reject (d : Direction) (s : State) (h : d = opposites s.direction) :
    changeDirection d s = s := by
  unfold changeDirection
  rw [if_neg]
  rw [h, opposites_involutive]
  exact fun hne => hne rfl

theorem changeDirection_frame (d : Direction) (s : State) :
    (changeDirection d s).direction = s.direction ∧
    (changeDirection d s).snake = s.snake ∧
    (changeDirection d s).food = s.food ∧
    (changeDirection d s).score = s.score ∧
    (changeDirection d s).gameSpeed = s.gameSpeed ∧
    (changeDirection d s).isPaused = s.isPaused ∧
    (changeDirection d s).isGameOver = s.isGameOver ∧
    (changeDirection d s).gameLoop = s.gameLoop ∧
    (changeDirection d s).highScore = s.highScore ∧
    (changeDirection d s).gameStartTime = s.gameStartTime := by
  unfold changeDirection
  by_cases h : opposites d ≠ s.direction
  · rw [if_pos h]; simp
  · rw [if_neg h]; simp

/-- C6, as the code has it. `changeDirection d` sets `nextDirection` to `d` when
`d` is not the opposite of `direction` and leaves it alone when it is; it never
touches `direction`, `snake`, `food`, `score` or `gameSpeed`. For a state that
is neither paused nor over and moves right: after a request for left, every
result of `gameStep` has `direction` equal to the `nextDirection` that was
pending before the request, which is right when no other turn was pending;
after a request for up, every result of `gameStep` has `direction` up. In both
cases the step returns as soon as the oracle offers a free cell. -/
theorem changeDirection_guard (s : State) (d : Direction) :
    (d ≠ opposites s.direction → (changeDirection d s).nextDirection = d) ∧
    (d = opposites s.direction → (changeDirection d s).nextDirection = s.nextDirection) ∧
    ((changeDirection d s).direction = s.direction ∧
      (changeDirection d s).snake = s.snake ∧
      (changeDirection d s).food = s.food ∧
      (changeDirection d s).score = s.score ∧
      (changeDirection d s).gameSpeed = s.gameSpeed) ∧
    (s.isPaused = false → s.isGameOver = false → s.direction = Direction.right →
      ∀ (now : Int) (rng : Nat → Rand) (fuel : Nat),
        (∀ s' out, gameStep now rng fuel (changeDirection Direction.left s) = some (s', out) →
          s'.direction = s.nextDirection ∧
          (s.nextDirection = Direction.right → s'.direction = Direction.right)) ∧
        (∀ s' out, gameStep now rng fuel (changeDirection Direction.up s) = some (s', out) →
          s'.direction = Direction.up) ∧
        (∀ e, offersFreeCell rng fuel (grownSnake (changeDirection e s)) →
          ∃ s' out, gameStep now rng fuel (changeDirection e s) = some (s', out))) := by
  obtain ⟨f1, f2, f3, f4, f5, f6, f7, -⟩ := changeDirection_frame d s
  refine ⟨?_, ?_, ⟨f1, f2, f3, f4, f5⟩, ?_⟩
  · intro h
    rw [changeDirection_accept d s h]
  · intro h
    rw [changeDirection_reject d s h]
  · intro hp hg hdir now rng fuel
    refine ⟨?_, ?_, ?_⟩
    · intro s' out hstep
      have hrej : changeDirection Direction.left s = s :=
        changeDirection_reject Direction.left s (by rw [hdir]; rfl)
      rw [hrej] at hstep
      have h := (gameStep_direction now rng fuel s s' out hp hg hstep).1
      exact ⟨h, fun hr => by rw [h, hr]⟩
    · intro s' out hstep
      have hacc : changeDirection Direction.up s = { s with nextDirection := Direction.up } :=
        changeDirection_accept Direction.up s (by rw [hdir]; decide)
      rw [hacc] at hstep
      exact (gameStep_direction now rng fuel { s with nextDirection := Direction.up } s' out
        hp hg hstep).1
    · intro e hfree
      exact gameStep_returns now rng fuel _ hfree

theorem changeDirection_guard_witness :
    freshGame.isPaused = false ∧ freshGame.isGameOver = false ∧
    freshGame.direction = Direction.right ∧
    (∀ s' out, gameStep 0 steadyRng 1 (changeDirection Direction.left freshGame) =
        some (s', out) →
      s'.direction = freshGame.nextDirection ∧
      (freshGame.nextDirection = Direction.right → s'.direction = Direction.right)) ∧
    (∀ s' out, gameStep 0 steadyRng 1 (changeDirection Direction.up freshGame) =
        some (s', out) →
      s'.direction = Direction.up) ∧
    (∀ e, offersFreeCell steadyRng 1 (grownSnake (changeDirection e freshGame)) →
      ∃ s' out, gameStep 0 steadyRng 1 (changeDirection e freshGame) = some (s', out)) ∧
    (gameStep 0 steadyRng 1 (changeDirection Direction.left freshGame)).map
        (fun r => r.1.direction) = some Direction.right ∧
    (gameStep 0 steadyRng 1 (changeDirection Direction.up freshGame)).map
        (fun r => r.1.direction) = some Direction.up :=
  ⟨rfl, rfl, rfl,
   ((changeDirection_guard freshGame Direction.left).2.2.2 rfl rfl rfl 0 steadyRng 1).1,
   ((changeDirection_guard freshGame Direction.left).2.2.2 rfl rfl rfl 0 steadyRng 1).2.1,
   ((changeDirection_guard freshGame Direction.left).2.2.2 rfl rfl rfl 0 steadyRng 1).2.2,
   by decide, by decide⟩

/-- C6 as stated fails on `turnPending`, a running game that moves right with a
turn up already requested: the request for left is dropped, the step applies
the pending turn, and `direction` is up, not right. -/
theorem turnPending_left_counterexample :
    turnPending.isPaused = false ∧ turnPending.isGameOver = false ∧
    turnPending.direction = Direction.right ∧
    changeDirection Direction.up freshGame = turnPending ∧
    changeDirection Direction.left turnPending = turnPending ∧
    gameStep 0 steadyRng 1 (changeDirection Direction.left turnPending) =
      some ({ turnPending with
                direction := Direction.up
                snake := [{ x := 5, y := 9 }, { x := 5, y := 10 }, { x := 4, y := 10 }] },
            [Effect.drawGame]) ∧
    (gameStep 0 steadyRng 1 (changeDirection Direction.left turnPending)).map
        (fun r => r.1.direction) ≠ some Direction.right := by
  decide
/-! ## The effect of `startGame` and the frame of `pauseGame` -/

theorem startGame_some (now : Int) (rng : Nat → Rand) (fuel : Nat) (s0 s : State)
    (out : List Effect) (h : startGame now rng fuel s0 = some (s, out)) :
    ∃ f, generateFoodLoop [{ x := 5, y := 10 }, { x := 4, y := 10 }, { x := 3, y := 10 }]
          rng fuel 0 = some f ∧
      s.snake = [{ x := 5, y := 10 }, { x := 4, y := 10 }, { x := 3, y := 10 }] ∧
      s.food = some f ∧
      s.direction = Direction.right ∧ s.nextDirection = Direction.right ∧
      s.score = 0 ∧ s.gameSpeed = 150 ∧ s.isPaused = false ∧ s.isGameOver = false ∧
      s.gameLoop = some 150 ∧ s.gameStartTime = some now := by
  unfold startGame generateFood initSnake updateScore at h
  simp only at h
  cases hloop : generateFoodLoop [{ x := 5, y := 10 }, { x := 4, y := 10 }, { x := 3, y := 10 }]
      rng fuel 0 with
  | none => rw [hloop] at h; simp at h
  | some f =>
    rw [hloop] at h
    refine ⟨f, rfl, ?_⟩
    by_cases hhi : (0 : Int) > s0.highScore
    · simp only [hhi, if_true] at h
      injection h with h
      injection h with h1 h2
      subst h1
      exact ⟨rfl, rfl, rfl, rfl, rfl, rfl, rfl, rfl, rfl, rfl⟩
    · simp only [hhi, if_false] at h
      injection h with h
      injection h with h1 h2
      subst h1
      exact ⟨rfl, rfl, rfl, rfl, rfl, rfl, rfl, rfl, rfl, rfl⟩

theorem startGame_returns (now : Int) (rng : Nat → Rand) (fuel : Nat) (s0 : State)
    (hfree : offersFreeCell rng fuel
      [{ x := 5, y := 10 }, { x := 4, y := 10 }, { x := 3, y := 10 }]) :
    ∃ s out, startGame now rng fuel s0 = some (s, out) := by
  obtain ⟨j, hj, hjfree⟩ := hfree
  obtain ⟨f, hf⟩ := generateFoodLoop_of_free _ rng j hjfree fuel 0 (Nat.zero_le _) (by omega)
  unfold startGame generateFood initSnake
  simp only [hf]
  exact ⟨_, _, rfl⟩

theorem pauseGame_frame (s : State) :
    (pauseGame s).1.snake = s.snake ∧
    (pauseGame s).1.food = s.food ∧
    (pauseGame s).1.score = s.score ∧
    (pauseGame s).1.direction = s.direction ∧
    (pauseGame s).1.nextDirection = s.nextDirection ∧
    (pauseGame s).1.gameSpeed = s.gameSpeed ∧
    (pauseGame s).1.isGameOver = s.isGameOver ∧
    (pauseGame s).1.highScore = s.highScore ∧
    (pauseGame s).1.gameStartTime = s.gameStartTime := by
  unfold pauseGame
  by_cases h1 : (s.isGameOver || s.gameLoop.isNone) = true
  · rw [if_pos h1]; simp
  · rw [if_neg h1]
    by_cases h2 : (!s.isPaused) = true
    · simp only [h2, if_true]; simp
    · simp only [h2]; simp

/-! ## C7: no reversal into the neck -/

theorem opposites_ne_self (d : Direction) : d ≠ opposites d := by
  cases d <;> decide

theorem moveHead_back (c : Coord) (d e : Direction)
    (h : moveHead (moveHead c d) e = c) : e = opposites d := by
  cases c with
  | mk x y =>
    cases d <;> cases e <;> simp [moveHead, opposites] at h ⊢ <;> omega

theorem reachable_neckBehind (s : State) (h : Reachable s) : neckBehind s := by
  induction h with
  | start now rng fuel s0 s out hstart =>
    obtain ⟨f, -, hsn, -, hd, hnd, -⟩ := startGame_some now rng fuel s0 s out hstart
    refine ⟨by rw [hd, hnd]; decide, _, _, _, hsn, fun _ => ?_⟩
    rw [hd]; rfl
  | step now rng fuel s s' out _ hstep ih =>
    obtain ⟨hne, hd, nk, rest, hsn, hneck⟩ := ih
    rcases gameStep_cases now rng fuel s s' out hstep with ⟨-, rfl⟩ | ⟨hp, hg, hc⟩
    · exact ⟨hne, hd, nk, rest, hsn, hneck⟩
    · rcases hc with ⟨hnil, -⟩ | ⟨hd', tl, -, -, rfl⟩ | ⟨hd', tl, hs, -, -, -, rfl⟩ |
        ⟨hd', tl, f, hs, -, -, -, -, -, rfl⟩
      · rw [hnil] at hsn; cases hsn
      · exact ⟨opposites_ne_self _, hd, nk, rest, hsn, fun hover => by cases hover⟩
      · rw [hsn] at hs
        injection hs with h1 h2
        subst h1 h2
        refine ⟨opposites_ne_self _, moveHead hd s.nextDirection, hd, (nk :: rest).dropLast,
          ?_, fun _ => rfl⟩
        simp
      · rw [hsn] at hs
        injection hs with h1 h2
        subst h1 h2
        obtain ⟨e1, -, -, e4, e5, -, -, -⟩ := afterEating_fields s (moveHead hd s.nextDirection) f
        refine ⟨by rw [e4, e5]; exact opposites_ne_self _, moveHead hd s.nextDirection, hd,
          nk :: rest, by rw [e1, hsn], fun _ => by rw [e4]⟩
  | turn d s _ ih =>
    obtain ⟨hne, hd, nk, rest, hsn, hneck⟩ := ih
    obtain ⟨f1, f2, -, -, -, -, f7, -⟩ := changeDirection_frame d s
    refine ⟨?_, hd, nk, rest, by rw [f2, hsn], fun hover => ?_⟩
    · rw [f1]
      by_cases hd' : d = opposites s.direction
      · rw [changeDirection_reject d s hd']; exact hne
      · rw [changeDirection_accept d s hd']; exact hd'
    · rw [f1]; exact hneck (by rw [← f7]; exact hover)
  | pause s _ ih =>
    obtain ⟨hne, hd, nk, rest, hsn, hneck⟩ := ih
    obtain ⟨p1, -, -, p4, p5, -, p7, -⟩ := pauseGame_frame s
    refine ⟨by rw [p4, p5]; exact hne, hd, nk, rest, by rw [p1, hsn], fun hover => ?_⟩
    rw [p4]; exact hneck (by rw [← p7]; exact hover)

/-- C7. In every state reachable from `startGame` by any interleaving of
`gameStep`, `changeDirection`, `pauseGame` and `startGame`, `nextDirection` is
not the opposite of `direction`; the snake has a head and a second segment; and
as long as the game is not over (so that a later `gameStep` can propose a head
at all), the proposed head, the head moved along `nextDirection`, is not the
second segment. -/
theorem reachable_no_reversal (s : State) (h : Reachable s) :
    s.nextDirection ≠ opposites s.direction ∧
    ∃ hd nk rest, s.snake = hd :: nk :: rest ∧
      (s.isGameOver = false → moveHead hd s.nextDirection ≠ nk) := by
  obtain ⟨hne, hd, nk, rest, hsn, hneck⟩ := reachable_neckBehind s h
  refine ⟨hne, hd, nk, rest, hsn, fun hover hback => hne ?_⟩
  have hhd := hneck hover
  rw [hhd] at hback
  exact moveHead_back nk s.direction s.nextDirection hback
/-! ## C8: the speed ramp -/

theorem eatsFood_iff (s : State) :
    eatsFood s = true ↔
      s.isPaused = false ∧ s.isGameOver = false ∧
        ∃ hd tl, s.snake = hd :: tl ∧ hitsWall (moveHead hd s.nextDirection) = false ∧
          moveHead hd s.nextDirection ∉ s.snake ∧
          s.food = some (moveHead hd s.nextDirection) := by
  unfold eatsFood
  rcases snake_nil_or_cons s with hs | ⟨hd, tl, hs⟩
  · simp [hs]
  · simp only [hs, Bool.and_eq_true, Bool.not_eq_true', decide_eq_true_eq,
      snakeSome_eq_false_iff]
    constructor
    · rintro ⟨⟨hp, hg⟩, ⟨hw, hself⟩, hfood⟩
      exact ⟨hp, hg, hd, tl, rfl, hw, hself, hfood⟩
    · rintro ⟨hp, hg, hd', tl', hcons, hw, hself, hfood⟩
      injection hcons with h1 h2
      subst h1 h2
      exact ⟨⟨hp, hg⟩, ⟨hw, hself⟩, hfood⟩

/-- The tick interval after a step, for every result of `gameStep`. -/
theorem gameStep_gameSpeed (now : Int) (rng : Nat → Rand) (fuel : Nat) (s s' : State)
    (out : List Effect) (h : gameStep now rng fuel s = some (s', out)) :
    s'.gameSpeed =
      if eatsFood s = true then
        (if s.gameSpeed > MIN_SPEED then s.gameSpeed - SPEED_INCREMENT else s.gameSpeed)
      else s.gameSpeed := by
  rcases gameStep_cases now rng fuel s s' out h with ⟨hidle, rfl⟩ | ⟨hp, hg, hc⟩
  · have hno : ¬ eatsFood s' = true := by
      rw [eatsFood_iff]
      rintro ⟨hp, hg, -⟩
      rcases hidle with h1 | h1
      · rw [hp] at h1; cases h1
      · rw [hg] at h1; cases h1
    rw [if_neg hno]
  · rcases hc with ⟨hnil, rfl⟩ | ⟨hd, tl, hs, hend, rfl⟩ | ⟨hd, tl, hs, -, -, hfood, rfl⟩ |
      ⟨hd, tl, f, hs, hw, hself, hfood, -, -, rfl⟩
    · have hno : ¬ eatsFood s = true := by
        rw [eatsFood_iff]
        rintro ⟨-, -, hd, tl, hcons, -⟩
        rw [hnil] at hcons; cases hcons
      rw [if_neg hno]
    · have hno : ¬ eatsFood s = true := by
        rw [eatsFood_iff]
        rintro ⟨-, -, hd', tl', hcons, hw, hself, -⟩
        rw [hs] at hcons
        injection hcons with h1 h2
        subst h1 h2
        rcases hend with h1 | h1
        · rw [hw] at h1; cases h1
        · exact hself h1
      rw [if_neg hno]
    · have hno : ¬ eatsFood s = true := by
        rw [eatsFood_iff]
        rintro ⟨-, -, hd', tl', hcons, -, -, hfood'⟩
        rw [hs] at hcons
        injection hcons with h1 h2
        subst h1 h2
        exact hfood hfood'
      rw [if_neg hno]
    · have hyes : eatsFood s = true :=
        (eatsFood_iff s).2 ⟨hp, hg, hd, tl, hs, hw, hself, hfood⟩
      rw [if_pos hyes]
      exact (afterEating_fields s (moveHead hd s.nextDirection) f).2.2.2.2.2.2.2

theorem reachable_speedInRange (s : State) (h : Reachable s) : speedInRange s := by
  induction h with
  | start now rng fuel s0 s out hstart =>
    obtain ⟨f, -, -, -, -, -, -, hsp, -⟩ := startGame_some now rng fuel s0 s out hstart
    unfold speedInRange
    rw [hsp]
    decide
  | step now rng fuel s s' out _ hstep ih =>
    have hsp := gameStep_gameSpeed now rng fuel s s' out hstep
    have h50 : MIN_SPEED = 50 := rfl
    have h5 : SPEED_INCREMENT = 5 := rfl
    unfold speedInRange at ih ⊢
    rw [hsp, h50, h5]
    split_ifs <;> omega
  | turn d s _ ih =>
    unfold speedInRange at ih ⊢
    rw [(changeDirection_frame d s).2.2.2.2.1]
    exact ih
  | pause s _ ih =>
    unfold speedInRange at ih ⊢
    rw [(pauseGame_frame s).2.2.2.2.2.1]
    exact ih

/-- C8. In every state reachable from `startGame`, `50 ≤ gameSpeed ≤ 150`;
`pauseGame` and `changeDirection` leave `gameSpeed` as it is; and for every
result of `gameStep`: if the step eats food, `gameSpeed` goes from `v` to
`v - 5` when `v > 50` and stays at 50 otherwise; if it does not, `gameSpeed`
is unchanged. So the tick interval never increases and never drops below 50. -/
theorem reachable_speed_ramp (s : State) (h : Reachable s) :
    (50 ≤ s.gameSpeed ∧ s.gameSpeed ≤ 150) ∧
    (pauseGame s).1.gameSpeed = s.gameSpeed ∧
    (∀ d, (changeDirection d s).gameSpeed = s.gameSpeed) ∧
    ∀ (now : Int) (rng : Nat → Rand) (fuel : Nat) (s' : State) (out : List Effect),
      gameStep now rng fuel s = some (s', out) →
        (eatsFood s = true →
          s'.gameSpeed = if s.gameSpeed > 50 then s.gameSpeed - 5 else 50) ∧
        (eatsFood s = false → s'.gameSpeed = s.gameSpeed) ∧
        s'.gameSpeed ≤ s.gameSpeed ∧ 50 ≤ s'.gameSpeed := by
  obtain ⟨hlo, hhi, hmod⟩ := reachable_speedInRange s h
  refine ⟨⟨hlo, hhi⟩, (pauseGame_frame s).2.2.2.2.2.1,
    fun d => (changeDirection_frame d s).2.2.2.2.1, ?_⟩
  intro now rng fuel s' out hstep
  have hsp := gameStep_gameSpeed now rng fuel s s' out hstep
  have h50 : MIN_SPEED = 50 := rfl
  have h5 : SPEED_INCREMENT = 5 := rfl
  rw [h50, h5] at hsp
  refine ⟨fun he => ?_, fun he => ?_, ?_, ?_⟩
  · rw [hsp, if_pos he]
    split_ifs <;> omega
  · rw [hsp, he]; simp
  · rw [hsp]; split_ifs <;> omega
  · rw [hsp]; split_ifs <;> omega
/-! ## C9: the board invariant -/

/-- C9. In every state reachable from `startGame` by `gameStep`,
`changeDirection`, `pauseGame` and `startGame`, no two snake segments have the
same coordinate and the food cell is the cell of no snake segment. -/
theorem reachable_board_distinct (s : State) (h : Reachable s) :
    s.snake.Nodup ∧ ∃ f, s.food = some f ∧ f ∉ s.snake := by
  induction h with
  | start now rng fuel s0 s out hstart =>
    obtain ⟨f, hloop, hsn, hfd, -⟩ := startGame_some now rng fuel s0 s out hstart
    obtain ⟨hnot, -⟩ := generateFoodLoop_some _ rng fuel 0 f hloop
    rw [hsn]
    exact ⟨by decide, f, hfd, hnot⟩
  | step now rng fuel s s' out _ hstep ih =>
    obtain ⟨hnd, f, hfd, hfree⟩ := ih
    rcases gameStep_cases now rng fuel s s' out hstep with ⟨-, rfl⟩ | ⟨hp, hg, hc⟩
    · exact ⟨hnd, f, hfd, hfree⟩
    · rcases hc with ⟨-, rfl⟩ | ⟨hd, tl, -, -, rfl⟩ | ⟨hd, tl, hs, -, hself, hfood, rfl⟩ |
        ⟨hd, tl, g, hs, -, hself, -, hg', -, rfl⟩
      · exact ⟨hnd, f, hfd, hfree⟩
      · exact ⟨hnd, f, hfd, hfree⟩
      · have hsub : (hd :: tl).dropLast.Sublist s.snake := by
          rw [hs]; exact List.dropLast_sublist _
        refine ⟨List.nodup_cons.2 ⟨fun hmem => hself (hsub.subset hmem), hnd.sublist hsub⟩,
          f, hfd, ?_⟩
        intro hmem
        rcases List.mem_cons.1 hmem with h1 | h1
        · exact hfood (by rw [hfd, h1])
        · exact hfree (hsub.subset h1)
      · obtain ⟨e1, -, e3, -⟩ := afterEating_fields s (moveHead hd s.nextDirection) g
        rw [e1]
        exact ⟨List.nodup_cons.2 ⟨hself, hnd⟩, g, e3, hg'⟩
  | turn d s _ ih =>
    obtain ⟨f1, f2, f3, -⟩ := changeDirection_frame d s
    rw [f2, f3]; exact ih
  | pause s _ ih =>
    obtain ⟨p1, p2, -⟩ := pauseGame_frame s
    rw [p1, p2]; exact ih

/-! ## C10: the reset -/

/-- C10. From every prior state, every result of `startGame` has the snake
`[(5,10),(4,10),(3,10)]`, score 0, `gameSpeed` 150, `direction` and
`nextDirection` right, `isPaused` and `isGameOver` false, a live timer with
interval 150, and a food cell on no segment of that snake. The call returns as
soon as the oracle offers, within the fuel, one cell off the initial snake. -/
theorem startGame_resets (now : Int) (rng : Nat → Rand) (fuel : Nat) (s0 : State) :
    (∀ s out, startGame now rng fuel s0 = some (s, out) →
      s.snake = [{ x := 5, y := 10 }, { x := 4, y := 10 }, { x := 3, y := 10 }] ∧
      s.score = 0 ∧ s.gameSpeed = 150 ∧
      s.direction = Direction.right ∧ s.nextDirection = Direction.right ∧
      s.isPaused = false ∧ s.isGameOver = false ∧ s.gameLoop = some 150 ∧
      ∃ f, s.food = some f ∧ f ∉ s.snake) ∧
    (offersFreeCell rng fuel [{ x := 5, y := 10 }, { x := 4, y := 10 }, { x := 3, y := 10 }] →
      ∃ s out, startGame now rng fuel s0 = some (s, out)) := by
  constructor
  · intro s out hstart
    obtain ⟨f, hloop, hsn, hfd, hd, hnd, hsc, hsp, hp, hg, hl, -⟩ :=
      startGame_some now rng fuel s0 s out hstart
    obtain ⟨hnot, -⟩ := generateFoodLoop_some _ rng fuel 0 f hloop
    exact ⟨hsn, hsc, hsp, hd, hnd, hp, hg, hl, f, hfd, by rw [hsn]; exact hnot⟩
  · exact startGame_returns now rng fuel s0
/-! ## Runs and concrete reachable states -/

theorem reachable_run (acts : List Action) (s s' : State) (h : Reachable s)
    (hrun : run acts s = some s') : Reachable s' := by
  induction acts generalizing s with
  | nil =>
    simp only [run] at hrun
    injection hrun with hrun
    exact hrun ▸ h
  | cons a rest ih =>
    simp only [run] at hrun
    cases hperf : perform a s with
    | none => rw [hperf] at hrun; simp at hrun
    | some s1 =>
      rw [hperf] at hrun
      refine ih s1 ?_ hrun
      cases a with
      | start now rng fuel =>
        simp only [perform] at hperf
        cases hst : startGame now rng fuel s with
        | none => rw [hst] at hperf; simp at hperf
        | some r =>
          rw [hst] at hperf
          have h1 : r.1 = s1 := by simpa using hperf
          exact Reachable.start now rng fuel s s1 r.2 (by rw [hst, ← h1])
      | step now rng fuel =>
        simp only [perform] at hperf
        cases hst : gameStep now rng fuel s with
        | none => rw [hst] at hperf; simp at hperf
        | some r =>
          rw [hst] at hperf
          have h1 : r.1 = s1 := by simpa using hperf
          exact Reachable.step now rng fuel s s1 r.2 h (by rw [hst, ← h1])
      | turn d =>
        simp only [perform] at hperf
        injection hperf with hperf
        exact hperf ▸ Reachable.turn d s h
      | pause =>
        simp only [perform] at hperf
        injection hperf with hperf
        exact hperf ▸ Reachable.pause s h

theorem reachable_freshGame : Reachable freshGame :=
  Reachable.start 0 steadyRng 1 initialState freshGame
    [Effect.startBgm, Effect.showScore 0, Effect.setStartLabel] (by decide)

theorem reachable_turnPending : Reachable turnPending :=
  reachable_run [Action.turn Direction.up] freshGame turnPending reachable_freshGame (by decide)

theorem reachable_belowFood : Reachable belowFood :=
  reachable_run toTheFood freshGame belowFood reachable_freshGame (by decide)

theorem reachable_topEnded : Reachable topEnded :=
  reachable_run intoTopWall freshGame topEnded reachable_freshGame (by decide)

/-- Once the game is over the variables can hold a pending direction that
points from the head to the second segment: `direction` was overwritten by the
fatal step, and no later `gameStep` gets past its guard to use the values. -/
theorem topEnded_points_at_neck :
    Reachable topEnded ∧ topEnded.isGameOver = true ∧
    topEnded.nextDirection ≠ opposites topEnded.direction ∧
    topEnded.snake = [{ x := 6, y := 0 }, { x := 5, y := 0 }, { x := 5, y := 1 }] ∧
    moveHead { x := 6, y := 0 } topEnded.nextDirection = { x := 5, y := 0 } ∧
    gameStep 0 steadyRng 1 topEnded = some (topEnded, []) :=
  ⟨reachable_topEnded, by decide⟩

/-- The oracle `stuckRng` proposes the cell `(5, 10)` at every pass. -/
theorem foodCandidate_stuckRng (k : Nat) : foodCandidate stuckRng k = { x := 5, y := 10 } := by
  have h0 : (2 * k) % 2 = 0 := by omega
  have h1 : (2 * k + 1) % 2 ≠ 0 := by omega
  simp only [foodCandidate, stuckRng, h0, h1, if_true, if_false]
  decide

/-- With the oracle `stuckRng` the sampling loop of `generateFood` does not stop
on the initial snake, whatever the fuel. -/
theorem generateFoodLoop_stuckRng (fuel k : Nat) :
    generateFoodLoop [{ x := 5, y := 10 }, { x := 4, y := 10 }, { x := 3, y := 10 }]
      stuckRng fuel k = none := by
  induction fuel generalizing k with
  | zero => rfl
  | succ n ih =>
    simp only [generateFoodLoop, foodCandidate_stuckRng]
    rw [if_pos (by decide)]
    exact ih (k + 1)

theorem startGame_stuckRng (now : Int) (fuel : Nat) (s0 : State) :
    startGame now stuckRng fuel s0 = none := by
  unfold startGame generateFood initSnake
  simp only [generateFoodLoop_stuckRng]

/-! ## Instances on concrete games -/

theorem reachable_no_reversal_witness :
    turnPending.nextDirection ≠ opposites turnPending.direction ∧
    ∃ hd nk rest, turnPending.snake = hd :: nk :: rest ∧
      (turnPending.isGameOver = false → moveHead hd turnPending.nextDirection ≠ nk) :=
  reachable_no_reversal turnPending reachable_turnPending

theorem reachable_speed_ramp_witness :
    eatsFood belowFood = true ∧
    (50 ≤ belowFood.gameSpeed ∧ belowFood.gameSpeed ≤ 150) ∧
    (pauseGame belowFood).1.gameSpeed = belowFood.gameSpeed ∧
    (∀ d, (changeDirection d belowFood).gameSpeed = belowFood.gameSpeed) ∧
    (∀ (now : Int) (rng : Nat → Rand) (fuel : Nat) (s' : State) (out : List Effect),
      gameStep now rng fuel belowFood = some (s', out) →
        (eatsFood belowFood = true →
          s'.gameSpeed = if belowFood.gameSpeed > 50 then belowFood.gameSpeed - 5 else 50) ∧
        (eatsFood belowFood = false → s'.gameSpeed = belowFood.gameSpeed) ∧
        s'.gameSpeed ≤ belowFood.gameSpeed ∧ 50 ≤ s'.gameSpeed) ∧
    (gameStep 0 (fun _ => tenth 1) 1 belowFood).map (fun r => r.1.gameSpeed) = some 145 :=
  ⟨by decide, (reachable_speed_ramp belowFood reachable_belowFood).1,
   (reachable_speed_ramp belowFood reachable_belowFood).2.1,
   (reachable_speed_ramp belowFood reachable_belowFood).2.2.1,
   (reachable_speed_ramp belowFood reachable_belowFood).2.2.2, by decide⟩

theorem reachable_board_distinct_witness :
    belowFood.snake.Nodup ∧ ∃ f, belowFood.food = some f ∧ f ∉ belowFood.snake :=
  reachable_board_distinct belowFood reachable_belowFood

theorem startGame_resets_witness :
    endedGame.isGameOver = true ∧ endedGame.score = 10 ∧ endedGame.gameSpeed = 145 ∧
    endedGame.snake.length = 4 ∧
    (∀ s out, startGame 9000 steadyRng 1 endedGame = some (s, out) →
      s.snake = [{ x := 5, y := 10 }, { x := 4, y := 10 }, { x := 3, y := 10 }] ∧
      s.score = 0 ∧ s.gameSpeed = 150 ∧
      s.direction = Direction.right ∧ s.nextDirection = Direction.right ∧
      s.isPaused = false ∧ s.isGameOver = false ∧ s.gameLoop = some 150 ∧
      ∃ f, s.food = some f ∧ f ∉ s.snake) ∧
    (∃ s out, startGame 9000 steadyRng 1 endedGame = some (s, out)) ∧
    startGame 9000 steadyRng 1 endedGame =
      some ({ freshGame with highScore := 10, gameStartTime := some 9000 },
            [Effect.startBgm, Effect.showScore 0, Effect.setStartLabel]) :=
  ⟨rfl, rfl, rfl, rfl, (startGame_resets 9000 steadyRng 1 endedGame).1,
   (startGame_resets 9000 steadyRng 1 endedGame).2 ⟨0, by decide, by decide⟩, by decide⟩

/-! ## C11: the sampling loop has no retry cap -/

/-- The loop is still running after `fuel` passes exactly when each of those
passes drew an occupied cell. -/
theorem generateFoodLoop_eq_none_iff (snake : List Coord) (rng : Nat → Rand) (fuel k : Nat) :
    generateFoodLoop snake rng fuel k = none ↔
      ∀ j, k ≤ j → j < k + fuel → foodCandidate rng j ∈ snake := by
  induction fuel generalizing k with
  | zero =>
    simp only [generateFoodLoop, true_iff]
    intro j h1 h2
    omega
  | succ n ih =>
    simp only [generateFoodLoop]
    by_cases hocc : snakeSome snake (foodCandidate rng k) = true
    · rw [if_pos hocc, ih (k + 1)]
      constructor
      · intro h j h1 h2
        by_cases hjk : j = k
        · rw [hjk]; exact (snakeSome_iff _ _).1 hocc
        · exact h j (by omega) (by omega)
      · intro h j h1 h2
        exact h j (by omega) (by omega)
    · rw [if_neg hocc]
      constructor
      · intro h; cases h
      · intro h
        exact absurd ((snakeSome_iff _ _).2 (h k (le_refl _) (by omega))) hocc

/-- The loop returns the first free candidate. -/
theorem generateFoodLoop_first_free (snake : List Coord) (rng : Nat → Rand) (fuel k j : Nat)
    (hk : k ≤ j) (hj : j < k + fuel) (hfree : foodCandidate rng j ∉ snake)
    (hbefore : ∀ i, k ≤ i → i < j → foodCandidate rng i ∈ snake) :
    generateFoodLoop snake rng fuel k = some (foodCandidate rng j) := by
  induction fuel generalizing k with
  | zero => omega
  | succ n ih =>
    simp only [generateFoodLoop]
    by_cases hjk : j = k
    · subst hjk
      rw [if_neg]
      rw [snakeSome_iff]; exact hfree
    · have hocc : snakeSome snake (foodCandidate rng k) = true :=
        (snakeSome_iff _ _).2 (hbefore k (le_refl _) (by omega))
      rw [if_pos hocc]
      exact ih (k + 1) (by omega) (by omega) (fun i h1 h2 => hbefore i (by omega) h2)

theorem mem_fullCentre (c : Coord) (h : inCentre c) : c ∈ fullCentre := by
  obtain ⟨⟨hx1, hx2⟩, hy1, hy2⟩ := h
  simp only [fullCentre, List.mem_flatMap, List.mem_map, List.mem_range]
  refine ⟨(c.x - 5).toNat, ?_, (c.y - 5).toNat, ?_, ?_⟩
  · omega
  · omega
  · cases c with
    | mk x y =>
      simp only [Coord.mk.injEq, Int.ofNat_eq_coe]
      simp only at hx1 hx2 hy1 hy2
      omega

theorem foodCandidate_inCentre (rng : Nat → Rand) (k : Nat) : inCentre (foodCandidate rng k) := by
  obtain ⟨h1, h2, h3, h4⟩ := foodCandidate_central rng k
  exact ⟨⟨h1, h2⟩, h3, h4⟩

/-- The call of `generateFood` has not returned after `fuel` passes exactly when
each of those passes drew an occupied cell. -/
theorem generateFood_eq_none_iff (rng : Nat → Rand) (fuel : Nat) (s : State) :
    generateFood rng fuel s = none ↔ ∀ j, j < fuel → foodCandidate rng j ∈ s.snake := by
  unfold generateFood
  cases hloop : generateFoodLoop s.snake rng fuel 0 with
  | none =>
    simp only [true_iff]
    intro j hj
    exact (generateFoodLoop_eq_none_iff s.snake rng fuel 0).1 hloop j (Nat.zero_le _)
      (by omega)
  | some f =>
    constructor
    · intro h; cases h
    · intro hall
      have := (generateFoodLoop_eq_none_iff s.snake rng fuel 0).2
        (fun j _ h2 => hall j (by omega))
      rw [this] at hloop
      cases hloop

/-- C11, as the code has it. `generateFood` has exactly one way out of its
loop, a candidate on no segment: within `fuel` passes it is still running
exactly when every pass so far drew an occupied cell, and it returns the first
free candidate when there is one. There is no retry cap and no failing exit:
when the snake lies on every cell of the central region the loop never stops,
whatever the oracle answers and however long it runs. -/
theorem generateFood_stops_only_on_free_cell (rng : Nat → Rand) (fuel : Nat) (s : State) :
    (generateFood rng fuel s = none ↔ ∀ j, j < fuel → foodCandidate rng j ∈ s.snake) ∧
    (∀ j, j < fuel → foodCandidate rng j ∉ s.snake →
      (∀ i, i < j → foodCandidate rng i ∈ s.snake) →
      generateFood rng fuel s = some { s with food := some (foodCandidate rng j) }) ∧
    ((∀ c, inCentre c → c ∈ s.snake) → generateFood rng fuel s = none) := by
  have hnone := generateFood_eq_none_iff rng fuel s
  refine ⟨hnone, ?_, ?_⟩
  · intro j hj hfree hbefore
    unfold generateFood
    rw [generateFoodLoop_first_free s.snake rng fuel 0 j (Nat.zero_le _) (by omega) hfree
      (fun i _ h2 => hbefore i h2)]
  · intro hfull
    exact hnone.2 (fun j _ => hfull _ (foodCandidate_inCentre rng j))

theorem generateFood_stops_only_on_free_cell_witness :
    (generateFood steadyRng 3 crowded = none ↔
      ∀ j, j < 3 → foodCandidate steadyRng j ∈ crowded.snake) ∧
    generateFood steadyRng 3 freshGame = some { freshGame with food := some { x := 8, y := 8 } } ∧
    generateFood steadyRng 3 crowded = none :=
  ⟨(generateFood_stops_only_on_free_cell steadyRng 3 crowded).1,
   (generateFood_stops_only_on_free_cell steadyRng 3 freshGame).2.1 0 (by decide) (by decide)
     (fun i hi => absurd hi (Nat.not_lt_zero i)),
   (generateFood_stops_only_on_free_cell steadyRng 3 crowded).2.2
     (fun c hc => mem_fullCentre c hc)⟩

/-- C11 as stated fails: on the initial snake with the oracle `stuckRng`, and on
a snake that fills the central region with any oracle, the `while` condition of
`generateFood` holds at every pass, so after any number of passes the loop is
still resampling; there is no bound and no failing exit. -/
theorem generateFood_unbounded_counterexample :
    (fullCentre.length = 100 ∧ fullCentre.Nodup) ∧
    (∀ k, snakeSome (initSnake initialState).snake (foodCandidate stuckRng k) = true) ∧
    (∀ fuel, generateFood stuckRng fuel (initSnake initialState) = none) ∧
    (∀ rng k, snakeSome crowded.snake (foodCandidate rng k) = true) ∧
    (∀ rng fuel, generateFood rng fuel crowded = none) := by
  refine ⟨⟨by decide, by decide⟩, ?_, ?_, ?_, ?_⟩
  · intro k
    rw [foodCandidate_stuckRng]
    decide
  · intro fuel
    unfold generateFood initSnake
    simp only [generateFoodLoop_stuckRng]
  · intro rng k
    rw [snakeSome_iff]
    exact mem_fullCentre _ (foodCandidate_inCentre rng k)
  · intro rng fuel
    exact (generateFood_eq_none_iff rng fuel crowded).2
      (fun j _ => mem_fullCentre _ (foodCandidate_inCentre rng j))

/-! ## C12: nothing moves while the game is paused or over -/

theorem pauseGame_over (s : State) (hover : s.isGameOver = true) : pauseGame s = (s, []) := by
  unfold pauseGame
  simp [hover]

/-- Once the game is over, calls other than `startGame` return and keep snake,
food, score and the over flag. -/
theorem run_after_end (acts : List Action) (s : State) (hover : s.isGameOver = true)
    (hcalls : ∀ a, a ∈ acts → a.isStart = false) :
    ∃ s', run acts s = some s' ∧ s'.snake = s.snake ∧ s'.food = s.food ∧
      s'.score = s.score ∧ s'.isGameOver = true := by
  induction acts generalizing s with
  | nil => exact ⟨s, rfl, rfl, rfl, rfl, hover⟩
  | cons a rest ih =>
    have hrest : ∀ b, b ∈ rest → b.isStart = false :=
      fun b hb => hcalls b (List.mem_cons_of_mem a hb)
    have ha := hcalls a (List.mem_cons_self a rest)
    cases a with
    | start now rng fuel => simp [Action.isStart] at ha
    | step now rng fuel =>
      obtain ⟨s', hrun, h1, h2, h3, h4⟩ := ih s hover hrest
      refine ⟨s', ?_, h1, h2, h3, h4⟩
      simp only [run, perform, gameStep_idle now rng fuel s (Or.inr hover), Option.map_some']
      exact hrun
    | turn d =>
      obtain ⟨f1, f2, f3, f4, -, -, f7, -⟩ := changeDirection_frame d s
      obtain ⟨s', hrun, h1, h2, h3, h4⟩ := ih (changeDirection d s) (by rw [f7]; exact hover) hrest
      refine ⟨s', ?_, by rw [h1, f2], by rw [h2, f3], by rw [h3, f4], h4⟩
      simp only [run, perform]
      exact hrun
    | pause =>
      obtain ⟨s', hrun, h1, h2, h3, h4⟩ := ih s hover hrest
      refine ⟨s', ?_, h1, h2, h3, h4⟩
      simp only [run, perform, pauseGame_over s hover]
      exact hrun

/-- C12. For every state, `pauseGame` leaves snake, food, score, direction,
nextDirection and gameSpeed as they are: from a running game (not paused, not
over, timer live) it only sets `isPaused` and clears the timer, and when the
game is over it changes nothing. For every state with `isPaused` or
`isGameOver` set, `gameStep` returns the state as it was and calls nobody. So
once the game is over, every sequence of calls without `startGame` leaves
snake, food, score and the over flag untouched. -/
theorem frozen_outside_running (s : State) :
    ((pauseGame s).1.snake = s.snake ∧ (pauseGame s).1.food = s.food ∧
      (pauseGame s).1.score = s.score ∧ (pauseGame s).1.direction = s.direction ∧
      (pauseGame s).1.nextDirection = s.nextDirection ∧
      (pauseGame s).1.gameSpeed = s.gameSpeed) ∧
    (∀ d, s.isPaused = false → s.isGameOver = false → s.gameLoop = some d →
      pauseGame s = ({ s with isPaused := true, gameLoop := none }, [Effect.stopBgm])) ∧
    (s.isGameOver = true → pauseGame s = (s, [])) ∧
    (s.isPaused = true ∨ s.isGameOver = true →
      ∀ (now : Int) (rng : Nat → Rand) (fuel : Nat), gameStep now rng fuel s = some (s, [])) ∧
    (s.isGameOver = true → ∀ acts : List Action, (∀ a, a ∈ acts → a.isStart = false) →
      ∃ s', run acts s = some s' ∧ s'.snake = s.snake ∧ s'.food = s.food ∧
        s'.score = s.score ∧ s'.isGameOver = true) := by
  obtain ⟨p1, p2, p3, p4, p5, p6, -⟩ := pauseGame_frame s
  refine ⟨⟨p1, p2, p3, p4, p5, p6⟩, ?_, pauseGame_over s, ?_, ?_⟩
  · intro d hp hg hl
    exact pauseGame_running s d hp hg hl
  · intro hidle now rng fuel
    exact gameStep_idle now rng fuel s hidle
  · intro hover acts hcalls
    exact run_after_end acts s hover hcalls

theorem frozen_outside_running_witness :
    pauseGame freshGame =
      ({ freshGame with isPaused := true, gameLoop := none }, [Effect.stopBgm]) ∧
    pauseGame endedGame = (endedGame, []) ∧
    gameStep 0 steadyRng 1 endedGame = some (endedGame, []) ∧
    gameStep 0 steadyRng 1 (pauseGame freshGame).1 = some ((pauseGame freshGame).1, []) ∧
    (∃ s', run [Action.turn Direction.up, Action.step 0 steadyRng 1, Action.pause,
                Action.step 1 steadyRng 1] endedGame = some s' ∧
      s'.snake = endedGame.snake ∧ s'.food = endedGame.food ∧
      s'.score = endedGame.score ∧ s'.isGameOver = true) :=
  ⟨(frozen_outside_running freshGame).2.1 150 rfl rfl rfl,
   (frozen_outside_running endedGame).2.2.1 rfl,
   (frozen_outside_running endedGame).2.2.2.1 (Or.inr rfl) 0 steadyRng 1,
   (frozen_outside_running (pauseGame freshGame).1).2.2.2.1 (Or.inl (by decide)) 0 steadyRng 1,
   (frozen_outside_running endedGame).2.2.2.2 rfl _ (by decide)⟩

/-! ## C13: calls before the first start -/

/-- C13, as the code has it. In a state with no timer and `direction` right,
as the module-initial state is, `pauseGame` returns at its guard and leaves the
whole state as it was; `changeDirection d` leaves every variable but
`nextDirection` as it was, sets `nextDirection` to `d` for every `d` other than
left, and does nothing for left. -/
theorem idle_calls (s : State) (hl : s.gameLoop = none) (hd : s.direction = Direction.right) :
    pauseGame s = (s, []) ∧
    (∀ d, d ≠ Direction.left → changeDirection d s = { s with nextDirection := d }) ∧
    changeDirection Direction.left s = s ∧
    (∀ d, (changeDirection d s).snake = s.snake ∧ (changeDirection d s).food = s.food ∧
      (changeDirection d s).direction = s.direction ∧
      (changeDirection d s).score = s.score ∧
      (changeDirection d s).highScore = s.highScore ∧
      (changeDirection d s).gameLoop = s.gameLoop ∧
      (changeDirection d s).isPaused = s.isPaused ∧
      (changeDirection d s).isGameOver = s.isGameOver ∧
      (changeDirection d s).gameStartTime = s.gameStartTime ∧
      (changeDirection d s).gameSpeed = s.gameSpeed) := by
  refine ⟨pauseGame_no_timer s hl, ?_, ?_, ?_⟩
  · intro d hne
    exact changeDirection_accept d s (by rw [hd]; exact hne)
  · exact changeDirection_reject Direction.left s (by rw [hd]; rfl)
  · intro d
    obtain ⟨f1, f2, f3, f4, f5, f6, f7, f8, f9, f10⟩ := changeDirection_frame d s
    exact ⟨f2, f3, f1, f4, f9, f8, f6, f7, f10, f5⟩

theorem idle_calls_witness :
    pauseGame initialState = (initialState, []) ∧
    (∀ d, d ≠ Direction.left →
      changeDirection d initialState = { initialState with nextDirection := d }) ∧
    changeDirection Direction.left initialState = initialState ∧
    changeDirection Direction.right initialState = initialState ∧
    changeDirection Direction.down initialState =
      { initialState with nextDirection := Direction.down } :=
  ⟨(idle_calls initialState rfl rfl).1, (idle_calls initialState rfl rfl).2.1,
   (idle_calls initialState rfl rfl).2.2.1, by decide, by decide⟩

/-- The deferred initial draw leaves a state of the same kind: no timer,
`direction` right. -/
theorem initialDraw_idle (rng : Nat → Rand) (fuel : Nat) (s : State) (out : List Effect)
    (h : initialDraw rng fuel initialState = some (s, out)) :
    s.gameLoop = none ∧ s.direction = Direction.right ∧
      s.nextDirection = Direction.right ∧
      s.snake = [{ x := 5, y := 10 }, { x := 4, y := 10 }, { x := 3, y := 10 }] := by
  unfold initialDraw generateFood initSnake at h
  simp only at h
  cases hloop : generateFoodLoop [{ x := 5, y := 10 }, { x := 4, y := 10 }, { x := 3, y := 10 }]
      rng fuel 0 with
  | none => rw [hloop] at h; simp at h
  | some f =>
    rw [hloop] at h
    injection h with h
    injection h with h1 h2
    subst h1
    exact ⟨rfl, rfl, rfl, rfl⟩

/-- C13 as stated fails in the module-initial state: `changeDirection('up')`
is accepted there and changes `nextDirection` from right to up. -/
theorem idle_turn_counterexample :
    initialState.gameLoop = none ∧ initialState.nextDirection = Direction.right ∧
    changeDirection Direction.up initialState =
      { initialState with nextDirection := Direction.up } ∧
    (changeDirection Direction.up initialState).nextDirection = Direction.up ∧
    changeDirection Direction.up initialState ≠ initialState := by
  decide

/-! ## The timer follows the status -/

theorem reachable_timerMatches (s : State) (h : Reachable s) : timerMatches s := by
  induction h with
  | start now rng fuel s0 s out hstart =>
    obtain ⟨f, -, -, -, -, -, -, hsp, hp, hg, hl, -⟩ := startGame_some now rng fuel s0 s out hstart
    refine ⟨fun _ => by rw [hl, hsp], ?_, fun h1 => hg⟩
    rintro (h1 | h1)
    · rw [hp] at h1; cases h1
    · rw [hg] at h1; cases h1
  | step now rng fuel s s' out _ hstep ih =>
    obtain ⟨hrun, hstop, hexcl⟩ := ih
    rcases gameStep_cases now rng fuel s s' out hstep with ⟨-, rfl⟩ | ⟨hp, hg, hc⟩
    · exact ⟨hrun, hstop, hexcl⟩
    · have hlive := hrun ⟨hp, hg⟩
      have hnot : ∀ t : State, t.isPaused = s.isPaused → t.isGameOver = s.isGameOver →
          t.isPaused = true ∨ t.isGameOver = true → t.gameLoop = none := by
        intro t h1 h2 h3
        rw [h1, h2, hp, hg] at h3
        rcases h3 with h3 | h3 <;> cases h3
      rcases hc with ⟨-, rfl⟩ | ⟨hd, tl, -, -, rfl⟩ | ⟨hd, tl, -, -, -, -, rfl⟩ |
        ⟨hd, tl, f, -, -, -, -, -, -, rfl⟩
      · exact ⟨fun _ => hlive, hnot _ rfl rfl, fun _ => hg⟩
      · refine ⟨fun h1 => ?_, fun _ => rfl, fun h1 => ?_⟩
        · cases h1.2
        · have h1' : s.isPaused = true := h1
          rw [hp] at h1'
          cases h1'
      · exact ⟨fun _ => hlive, hnot _ rfl rfl, fun _ => hg⟩
      · unfold timerMatches afterEating updateScore
        by_cases hhi : s.score + 10 > s.highScore <;>
          by_cases hsp : s.gameSpeed > MIN_SPEED <;>
          simp [hhi, hsp, hp, hg, hlive]
  | turn d s _ ih =>
    obtain ⟨-, -, -, -, f5, f6, f7, f8, -⟩ := changeDirection_frame d s
    unfold timerMatches at ih ⊢
    rw [f5, f6, f7, f8]
    exact ih
  | pause s _ ih =>
    obtain ⟨hrun, hstop, hexcl⟩ := ih
    by_cases hidle : s.isPaused = true ∨ s.isGameOver = true
    · have hnone := hstop hidle
      rw [pauseGame_no_timer s hnone]
      exact ⟨hrun, hstop, hexcl⟩
    · have hp : s.isPaused = false := by
        cases hv : s.isPaused
        · rfl
        · exact absurd (Or.inl hv) hidle
      have hg : s.isGameOver = false := by
        cases hv : s.isGameOver
        · rfl
        · exact absurd (Or.inr hv) hidle
      rw [pauseGame_running s s.gameSpeed hp hg (hrun ⟨hp, hg⟩)]
      exact ⟨fun h1 => Bool.noConfusion h1.1, fun _ => rfl, fun _ => hg⟩

/-! ## C14: score, length and speed in lockstep -/

theorem reachable_lockstep (s : State) (h : Reachable s) : lockstep s := by
  induction h with
  | start now rng fuel s0 s out hstart =>
    obtain ⟨f, -, hsn, -, -, -, hsc, hsp, -⟩ := startGame_some now rng fuel s0 s out hstart
    unfold lockstep
    rw [hsn, hsc, hsp]
    decide
  | step now rng fuel s s' out _ hstep ih =>
    obtain ⟨hlen, hscore, hspeed⟩ := ih
    rcases gameStep_cases now rng fuel s s' out hstep with ⟨-, rfl⟩ | ⟨hp, hg, hc⟩
    · exact ⟨hlen, hscore, hspeed⟩
    · rcases hc with ⟨-, rfl⟩ | ⟨hd, tl, -, -, rfl⟩ | ⟨hd, tl, hs, -, -, -, rfl⟩ |
        ⟨hd, tl, f, hs, -, -, -, -, -, rfl⟩
      · exact ⟨hlen, hscore, hspeed⟩
      · exact ⟨hlen, hscore, hspeed⟩
      · have hl : (moveHead hd s.nextDirection :: (hd :: tl).dropLast).length =
            s.snake.length := by
          rw [hs]; simp
        unfold lockstep
        simp only [hl]
        exact ⟨hlen, hscore, hspeed⟩
      · obtain ⟨e1, e2, -, -, -, -, -, e8⟩ := afterEating_fields s (moveHead hd s.nextDirection) f
        have h50 : MIN_SPEED = 50 := rfl
        have h5 : SPEED_INCREMENT = 5 := rfl
        unfold lockstep
        rw [e1, e2, e8, h50, h5, List.length_cons]
        push_cast
        refine ⟨by omega, by omega, ?_⟩
        rw [hspeed]
        simp only [max_def]
        split_ifs <;> omega
  | turn d s _ ih =>
    obtain ⟨-, f2, -, f4, f5, -⟩ := changeDirection_frame d s
    unfold lockstep at ih ⊢
    rw [f2, f4, f5]
    exact ih
  | pause s _ ih =>
    obtain ⟨p1, -, p3, -, -, p6, -⟩ := pauseGame_frame s
    unfold lockstep at ih ⊢
    rw [p1, p3, p6]
    exact ih

/-- C14. In every state reachable after a call of `startGame` (by `gameStep`,
`changeDirection`, `pauseGame`, and further calls of `startGame`): the score is
`10 * (snake.length - 3)`, `gameSpeed` is `max(50, 150 - 5 * (snake.length - 3))`,
the snake has at least three segments, and the score is a non-negative multiple
of 10. -/
theorem reachable_score_length_speed (s : State) (h : Reachable s) :
    s.score = 10 * ((s.snake.length : Int) - 3) ∧
    s.gameSpeed = max 50 (150 - 5 * ((s.snake.length : Int) - 3)) ∧
    3 ≤ s.snake.length ∧ 0 ≤ s.score ∧ s.score % 10 = 0 := by
  obtain ⟨hlen, hscore, hspeed⟩ := reachable_lockstep s h
  refine ⟨hscore, hspeed, hlen, ?_, ?_⟩
  · rw [hscore]; omega
  · rw [hscore]; omega

theorem reachable_grownGame : Reachable grownGame :=
  reachable_run eatTheFood freshGame grownGame reachable_freshGame (by decide)

theorem reachable_score_length_speed_witness :
    grownGame.snake.length = 4 ∧ grownGame.score = 10 ∧ grownGame.gameSpeed = 145 ∧
    (grownGame.score = 10 * ((grownGame.snake.length : Int) - 3) ∧
      grownGame.gameSpeed = max 50 (150 - 5 * ((grownGame.snake.length : Int) - 3)) ∧
      3 ≤ grownGame.snake.length ∧ 0 ≤ grownGame.score ∧ grownGame.score % 10 = 0) :=
  ⟨rfl, rfl, rfl, reachable_score_length_speed grownGame reachable_grownGame⟩

end SnakeGame
